import Mathlib

/-!
Shallow embedding of the preprocessor in src/lib/preprocessor.cpp
(class Preprocessor of cppcheck).  Strings are modelled as `List Char`;
`std::getline`-style line splitting, `std::map` / `std::set` as sorted
association lists, and each translated function mirrors the control flow
of its C++ source.  External collaborators that are not part of
src/lib/preprocessor.cpp (the Tokenizer, the suppression registry) are
modelled from the specification and marked as such in their doc comments.
-/

namespace Cppcheck

/-- Characters of a C++ `std::string`. -/
abbrev Str := List Char

/-- Shorthand turning a Lean string literal into the `List Char` model. -/
def SL (s : String) : Str := s.toList

/-- Number of newline characters in a string. -/
def countNL (s : Str) : Nat := s.count '\n'

/-- Does `p` occur at the start of `s`?  (Models `line.compare(0, n, p) == 0`.) -/
def startsW : Str → Str → Bool
  | [], _ => true
  | _ :: _, [] => false
  | p :: ps, c :: cs => p = c && startsW ps cs

/-- One step of `std::getline` splitting: accumulate the current line
(in reverse) until a newline or the end of input. -/
def splitLinesGo (cur : Str) : Str → List Str
  | [] => [cur.reverse]
  | c :: rest =>
    if c = '\n' then
      match rest with
      | [] => [cur.reverse]
      | _ :: _ => cur.reverse :: splitLinesGo [] rest
    else
      splitLinesGo (c :: cur) rest

/-- `std::getline` splitting of a whole string: the empty string yields no
lines; a trailing newline does not produce an extra empty line. -/
def splitLines : Str → List Str
  | [] => []
  | s => splitLinesGo [] s

/-- Does the string end with a newline character? -/
def endsNL (s : Str) : Bool := s.getLast? = some '\n'

/-- `std::string::erase(p, n)` on the list model. -/
def eraseAt (s : Str) (p n : Nat) : Str := s.take p ++ s.drop (p + n)

/-- `std::string::insert(p, t)` on the list model. -/
def insertAt (s : Str) (p : Nat) (t : Str) : Str := s.take p ++ t ++ s.drop p

/-- Search helper: smallest index `≥ i` (in the original indexing) at which
`pat` occurs in the remaining suffix. -/
def findSubGo (pat : Str) : Str → Nat → Option Nat
  | [], i => if pat = [] then some i else none
  | c :: rest, i =>
    if startsW pat (c :: rest) then some i else findSubGo pat rest (i + 1)

/-- `std::string::find(pat, start)`. -/
def findSubFrom (s pat : Str) (start : Nat) : Option Nat :=
  (findSubGo pat (s.drop start) 0).map (· + start)

/-- `str.find(pat) != npos` as a boolean. -/
def containsSub (s pat : Str) : Bool := (findSubFrom s pat 0).isSome

/-- `std::string::find_first_of(set, start)`. -/
def findCharOfGo (set : Str) : Str → Nat → Option Nat
  | [], _ => none
  | c :: rest, i => if set.contains c then some i else findCharOfGo set rest (i + 1)

/-- `std::string::find_first_of(set, start)` relative to the whole string. -/
def findCharOfFrom (s set : Str) (start : Nat) : Option Nat :=
  (findCharOfGo set (s.drop start) 0).map (· + start)

/-- `std::string::find_first_not_of(set, start)`. -/
def findCharNotOfGo (set : Str) : Str → Nat → Option Nat
  | [], _ => none
  | c :: rest, i => if set.contains c then findCharNotOfGo set rest (i + 1) else some i

/-- `std::string::find_first_not_of(set, start)` relative to the whole string. -/
def findCharNotOfFrom (s set : Str) (start : Nat) : Option Nat :=
  (findCharNotOfGo set (s.drop start) 0).map (· + start)

/-- Character read `s[i]`, with the C++ guarantee that reading the position
one past the end of a `std::string` yields the NUL terminator. -/
def charAt (s : Str) (i : Nat) : Char := (s.get? i).getD (Char.ofNat 0)

/-- `std::isalpha` for the 7-bit ASCII inputs the preprocessor handles. -/
def isAlphaCh (c : Char) : Bool :=
  ('a' ≤ c && c ≤ 'z') || ('A' ≤ c && c ≤ 'Z')

/-- `std::isdigit`. -/
def isDigitCh (c : Char) : Bool := '0' ≤ c && c ≤ '9'

/-- `std::isalnum`. -/
def isAlnumCh (c : Char) : Bool := isAlphaCh c || isDigitCh c

/-- `std::isspace`: space, tab, newline, vertical tab, form feed, carriage
return. -/
def isSpaceCh (c : Char) : Bool :=
  c = ' ' || c = '\t' || c = '\n' || c = Char.ofNat 11 || c = Char.ofNat 12 ||
  c = Char.ofNat 13

/-- `std::iscntrl`: ASCII control characters. -/
def isCntrlCh (c : Char) : Bool := c.toNat < 32 || c.toNat = 127

/-! ### Ordered maps and sets (`std::map<std::string, std::string>`,
`std::set<std::string>`) as sorted association lists. -/

/-- Lexicographic byte-wise comparison of `std::string` (`operator<`). -/
def lexLt : Str → Str → Bool
  | [], [] => false
  | [], _ :: _ => true
  | _ :: _, [] => false
  | a :: as, b :: bs => if a = b then lexLt as bs else decide (a < b)

/-- Sorted string map; keys strictly increasing in `lexLt`. -/
abbrev StrMap := List (Str × Str)

/-- `std::map::operator[] = v` (insert or replace), keeping keys sorted. -/
def mapInsert (k v : Str) : StrMap → StrMap
  | [] => [(k, v)]
  | (k2, v2) :: rest =>
    if lexLt k k2 then (k, v) :: (k2, v2) :: rest
    else if k = k2 then (k, v) :: rest
    else (k2, v2) :: mapInsert k v rest

/-- `std::map::find` returning the mapped value. -/
def mapFind (m : StrMap) (k : Str) : Option Str :=
  (m.find? (fun p => p.1 = k)).map (·.2)

/-- `cfg.find(k) != cfg.end()`. -/
def mapHasKey (m : StrMap) (k : Str) : Bool := (mapFind m k).isSome

/-- `std::map::erase(key)`. -/
def mapErase (m : StrMap) (k : Str) : StrMap := m.filter (fun p => p.1 ≠ k)

/-- Sorted string set (`std::set<std::string>`). -/
abbrev StrSet := List Str

/-- `std::set::insert`, keeping the elements strictly sorted. -/
def setInsert (k : Str) : StrSet → StrSet
  | [] => [k]
  | k2 :: rest =>
    if lexLt k k2 then k :: k2 :: rest
    else if k = k2 then k2 :: rest
    else k2 :: setInsert k rest

/-- `set.find(k) != set.end()`. -/
def setHas (s : StrSet) (k : Str) : Bool := s.contains k

/-! ### `removeIf0` (preprocessor.cpp lines 546-579) -/

/-- The line-processing loops of `Preprocessor::removeIf0`.  Mode `none`
is the outer `while (getline)` loop; mode `some (level, inn)` is the inner
loop that traverses an `#if 0` block at nesting depth `level`, where `inn`
records whether an `#else`/`#elif` at depth one has been seen. -/
def rif0Go : Option (Nat × Bool) → List Str → Str
  | _, [] => []
  | none, l :: ls =>
    l ++ '\n' :: rif0Go (if l = SL "#if 0" then some (1, false) else none) ls
  | some (level, inn), l :: ls =>
    if startsW (SL "#if") l then
      l ++ '\n' :: rif0Go (some (level + 1, inn)) ls
    else if l = SL "#endif" then
      (if level ≤ 1 then l ++ '\n' :: rif0Go none ls
       else l ++ '\n' :: rif0Go (some (level - 1, inn)) ls)
    else if l = SL "#else" || startsW (SL "#elif") l then
      l ++ '\n' :: rif0Go (some (level, if level = 1 then true else inn)) ls
    else
      (if inn then l ++ ['\n'] else ['\n']) ++ rif0Go (some (level, inn)) ls

/-- `Preprocessor::removeIf0`. -/
def removeIf0 (code : Str) : Str := rif0Go none (splitLines code)

/-! ### `removeParentheses` (preprocessor.cpp lines 582-646) -/

/-- Loop `while ((pos = line.find(pat, pos))) line.erase(pos + off, 1)`,
restarting the search at the found position.  The string shrinks by one
character per iteration, so `fuel = s.length + 1` always suffices. -/
def eraseLoop (fuel : Nat) (pat : Str) (off : Nat) (s : Str) (pos : Nat) : Str :=
  match fuel with
  | 0 => s
  | fuel + 1 =>
    match findSubFrom s pat pos with
    | none => s
    | some p => eraseLoop fuel pat off (eraseAt s (p + off) 1) p

/-- The loop removing inner parentheses `"((..))"` in `removeParentheses`. -/
def innerParenLoop (fuel : Nat) (s : Str) (pos : Nat) : Str :=
  match fuel with
  | 0 => s
  | fuel + 1 =>
    match findSubFrom s (SL "((") pos with
    | none => s
    | some p =>
      let pos2o := findCharOfFrom s (SL "()") (p + 2)
      match pos2o with
      | some p2 =>
        if charAt s p2 = ')' then
          innerParenLoop fuel (eraseAt (eraseAt s p2 1) (p + 1) 1) (p + 1)
        else
          innerParenLoop fuel s (p + 1)
      | none => innerParenLoop fuel s (p + 1)

/-- The transformation applied when the parentheses of an `#if(...)` line
span the whole condition: blank the first `(` and drop the final `)`. -/
def fullSpanApply (s : Str) : Str :=
  match findSubFrom s (SL "(") 0 with
  | some q => eraseAt (s.set q ' ') (s.length - 1) 1
  | none => eraseAt s (s.length - 1) 1

/-- The scan of `removeParentheses` deciding whether the whole `#if(...)`
condition is wrapped in one pair of parentheses: when the parenthesis
depth first returns to zero exactly at the last character, apply
`fullSpanApply`. -/
def fullSpanGo (s : Str) : Nat → Nat → Int → Str
  | 0, _, _ => s
  | fuel + 1, i, ind =>
    if i < s.length then
      let c := charAt s i
      if c = '(' then fullSpanGo s fuel (i + 1) (ind + 1)
      else if c = ')' then
        if ind - 1 = 0 then
          (if i = s.length - 1 then fullSpanApply s else s)
        else fullSpanGo s fuel (i + 1) (ind - 1)
      else fullSpanGo s fuel (i + 1) ind
    else s

/-- The full-span parenthesis collapse of `removeParentheses`
(lines 617-635). -/
def fullSpanScan (s : Str) : Str := fullSpanGo s (s.length + 1) 0 0

/-- Per-line transformation of `Preprocessor::removeParentheses` applied to
`#if` / `#elif` lines. -/
def rparLine (l : Str) : Str :=
  if startsW (SL "#if") l || startsW (SL "#elif") l then
    let fuel := l.length + 1
    let l := eraseLoop fuel (SL " (") 0 l 0
    let l := eraseLoop fuel (SL "( ") 1 l 0
    let l := eraseLoop fuel (SL " )") 0 l 0
    let l := eraseLoop fuel (SL ") ") 1 l 0
    let l := innerParenLoop (l.length + 1) l 0
    let l :=
      if (startsW (SL "#if(") l || startsW (SL "#elif(") l) &&
          charAt l (l.length - 1) = ')' then
        fullSpanScan l
      else l
    if startsW (SL "#if(") l then insertAt l 3 (SL " ")
    else if startsW (SL "#elif(") l then insertAt l 5 (SL " ")
    else l
  else l

/-- `Preprocessor::removeParentheses`. -/
def removeParentheses (s : Str) : Str :=
  if !containsSub s (SL "\n#if") && !startsW (SL "#if") s then s
  else (splitLines s).foldr (fun l acc => rparLine l ++ '\n' :: acc) []

/-! ### Settings and the error sink -/

/-- The slice of the external `Settings` collaborator that
preprocessor.cpp reads. -/
structure Settings where
  userDefines : Str := []
  userUndefs : StrSet := []
  inlineSuppressions : Bool := false
  styleEnabled : Bool := false
  experimental : Bool := false
  debugwarnings : Bool := false
deriving DecidableEq, Repr

/-- A message sent to the error-sink collaborator: its id string and the
(filename, line) location. -/
structure CppError where
  id : Str
  file : Str
  line : Nat
deriving DecidableEq, Repr

/-! ### `removeComments` (preprocessor.cpp lines 284-544) -/

/-- `istringstream >> word` splitting of a comment into whitespace-separated
words, used for `cppcheck-suppress` parsing. -/
def wordsOf (s : Str) : List Str :=
  ((s.splitOnP (fun c => isSpaceCh c = true)).filter (fun w => w ≠ []))

/-- `isFallThroughComment`: lowercase the comment, remove whitespace, and
look for the fall-through markers. -/
def isFallThroughComment (comment : Str) : Bool :=
  let c := (comment.filter (fun ch => !isSpaceCh ch)).map Char.toLower
  containsSub c (SL "fallthr") || containsSub c (SL "fallsthr") ||
  containsSub c (SL "fall-thr") || containsSub c (SL "dropthr") ||
  containsSub c (SL "passthr") || containsSub c (SL "nobreak") ||
  c = SL "fall"

/-- Mutable state of the `removeComments` character loop. -/
structure RcState where
  out : Str := []
  lineno : Nat := 1
  newlines : Nat := 0
  previous : Char := Char.ofNat 0
  inPre : Bool := false
  supps : List Str := []
  fallThrough : Bool := false
  errors : List CppError := []

/-- The do-while loop consuming a string or character literal inside
`removeComments`.  `q` is the quote character; the cursor starts just
after the opening quote.  Reading one position past the end of a
`std::string` yields NUL, which is emitted like any other character.
Returns (emitted text, newlines counted, updated `previous`, rest). -/
def rcStrLit (q : Char) (prev : Char) : Str → (Str × Nat × Char × Str)
  | [] => ([Char.ofNat 0], 0, Char.ofNat 0, [])
  | c :: rest =>
    if c = '\\' then
      match rest with
      | [] => ([c, Char.ofNat 0], 0, Char.ofNat 0, [])
      | d :: rest2 =>
        if d = '\n' then
          let (e, n, p, r) := rcStrLit q prev rest2
          (e, n + 1, p, r)
        else
          let (e, n, p, r) := rcStrLit q d rest2
          (c :: d :: e, n, p, r)
    else
      if c = q || c = '\n' then ([c], 0, c, rest)
      else
        let (e, n, p, r) := rcStrLit q c rest
        (c :: e, n, p, r)

/-- Transformation of one raw-string body character (preprocessor.cpp
lines 513-527).  Returns the emitted characters and the deferred-newline
increment. -/
def rcRawChar (c : Char) : Str × Nat :=
  if c = '\n' then (SL "\\n", 1)
  else if isCntrlCh c || isSpaceCh c then ([' '], 0)
  else if c = '\\' then (['\\'], 0)
  else if c = '"' || c = '\'' then (['\\', c], 0)
  else ([c], 0)

/-- The raw-string delimiter scan (preprocessor.cpp lines 496-508): `i2`
runs over absolute positions starting at `i + 2`; an absolute position
greater than 16, whitespace, a control character, `)` or `\` aborts with
the sentinel delimiter `" "`; `(` ends the delimiter. -/
def rcRawDelim (i2 : Nat) : Str → Str
  | [] => []
  | c :: rest =>
    if i2 > 16 || isSpaceCh c || isCntrlCh c || c = ')' || c = '\\' then [' ']
    else if c = '(' then []
    else c :: rcRawDelim (i2 + 1) rest

/-- `Preprocessor::removeComments`, written as a fuel recursion over the
remaining input; every loop iteration consumes at least one character, so
`fuel = str.length + 1` always suffices.  `i` is the absolute position of
the cursor (used by the raw-string delimiter scan).  Returns `none` only
on fuel exhaustion. -/
def rcGo (settings : Option Settings) (filename : Str) :
    Nat → Nat → RcState → Str → Option (RcState × Bool)
  | 0, _, _, _ => none
  | _ + 1, _, st, [] => some (st, true)
  | fuel + 1, i, st, r@(ch :: rest) =>
    -- non-ASCII byte: report a syntaxError, then continue processing ch
    let st :=
      if ch.toNat ≥ 0x80 then
        { st with errors := st.errors ++
            [⟨SL "syntaxError", filename, st.lineno⟩] }
      else st
    -- #error / #warning are copied to end of line without comment stripping
    if (startsW (SL "#error") r &&
          (match settings with
           | none => true
           | some s => s.userDefines = [])) || startsW (SL "#warning") r then
      let st :=
        if startsW (SL "#error") r then { st with out := st.out ++ SL "#error" }
        else st
      match findSubFrom r (SL "\n") 0 with
      | none => some (st, false)
      | some p => rcGo settings filename fuel (i + p) st (r.drop p)
    else if isSpaceCh ch then
      let st :=
        if ch = ' ' && st.previous = ' ' then st
        else { st with out := st.out ++ [ch], previous := ch }
      let st :=
        if ch = '\n' then
          let st := { st with inPre := false, lineno := st.lineno + 1 }
          if st.newlines > 0 then
            { st with out := st.out ++ List.replicate st.newlines '\n',
                      newlines := 0, previous := '\n' }
          else st
        else st
      rcGo settings filename fuel (i + 1) st rest
    else if startsW (SL "//") r then
      match findSubFrom r (SL "\n") 0 with
      | none => some (st, false)
      | some p =>
        let comment := (r.take p).drop 2
        let st :=
          match settings with
          | some s =>
            if s.inlineSuppressions then
              match wordsOf comment with
              | w1 :: w2 :: _ =>
                if w1 = SL "cppcheck-suppress" then
                  { st with supps := st.supps ++ [w2] }
                else st
              | _ => st
            else st
          | none => st
        let st :=
          if isFallThroughComment comment then { st with fallThrough := true }
          else st
        let st := { st with out := st.out ++ ['\n'], previous := '\n',
                            lineno := st.lineno + 1 }
        rcGo settings filename fuel (i + p + 1) st (r.drop (p + 1))
    else if startsW (SL "/*") r then
      let body := r.drop 2
      match findSubFrom body (SL "*/") 0 with
      | none => some ({ st with newlines := st.newlines + countNL body,
                                lineno := st.lineno + countNL body }, false)
      | some m =>
        let comment := body.take m
        let st := { st with newlines := st.newlines + countNL comment,
                            lineno := st.lineno + countNL comment }
        let st :=
          if isFallThroughComment comment then { st with fallThrough := true }
          else st
        let st :=
          match settings with
          | some s =>
            if s.inlineSuppressions then
              match wordsOf comment with
              | w1 :: w2 :: _ =>
                if w1 = SL "cppcheck-suppress" then
                  { st with supps := st.supps ++ [w2] }
                else st
              | _ => st
            else st
          | none => st
        rcGo settings filename fuel (i + m + 4) st (body.drop (m + 2))
    else if ch = '#' && st.previous = '\n' then
      let st := { st with out := st.out ++ ['#'], previous := '#',
                          inPre := true, supps := [] }
      rcGo settings filename fuel (i + 1) st rest
    else
      -- plain code character
      let st :=
        if !st.inPre then
          let st :=
            match settings with
            | some s =>
              if s.styleEnabled && s.experimental && st.fallThrough then
                let tok := r.takeWhile (fun c => 'a' ≤ c && c ≤ 'z')
                let st :=
                  if tok = SL "case" || tok = SL "default" then
                    { st with supps := st.supps ++ [SL "switchCaseFallThrough"] }
                  else st
                { st with fallThrough := false }
              else st
            | none => st
          { st with supps := [] }
        else st
      if ch = '"' || ch = '\'' then
        let st := { st with out := st.out ++ [ch] }
        let (e, n, p, rem) := rcStrLit ch st.previous rest
        let st := { st with out := st.out ++ e, newlines := st.newlines + n,
                            previous := p }
        rcGo settings filename fuel (i + 1 + (rest.length - rem.length)) st rem
      else if startsW (SL "R\"") r then
        let delim := rcRawDelim (i + 2) (r.drop 2)
        match findSubFrom r (')' :: delim ++ ['"']) 0 with
        | some re =>
          if delim ≠ [' '] then
            let bodyLen := re - (3 + delim.length)
            let body := (r.drop (3 + delim.length)).take bodyLen
            let pieces := body.map rcRawChar
            let emitted := (pieces.map Prod.fst).flatten
            let rawNL := (pieces.map Prod.snd).sum
            let st := { st with out := st.out ++ '"' :: emitted ++ '"' ::
                          List.replicate rawNL '\n' }
            rcGo settings filename fuel (i + re + delim.length + 3) st
              (r.drop (re + delim.length + 3))
          else
            let st := { st with out := st.out ++ ['R'], previous := 'R' }
            rcGo settings filename fuel (i + 1) st rest
        | none =>
          let st := { st with out := st.out ++ ['R'], previous := 'R' }
          rcGo settings filename fuel (i + 1) st rest
      else
        let st := { st with out := st.out ++ [ch], previous := ch }
        rcGo settings filename fuel (i + 1) st rest

/-- `Preprocessor::removeComments`: strip a UTF-8 byte-order mark, then run
the character loop.  Returns the emitted text and the reported errors
(`none` only on fuel exhaustion, which `str.length + 1` fuel rules out). -/
def removeComments (settings : Option Settings) (str : Str) (filename : Str) :
    Option (Str × List CppError) :=
  let start :=
    if startsW [Char.ofNat 0xef, Char.ofNat 0xbb, Char.ofNat 0xbf] str then
      str.drop 3
    else str
  (rcGo settings filename (str.length + 1) (if start = str then 0 else 3)
      {} start).map (fun p => (p.1.out, p.1.errors))

/-! ### `getdef` (preprocessor.cpp lines 833-877) -/

/-- The space-removal loop at the end of `getdef`: a space is kept only when
both neighbours are identifier characters; `prev` is the character last kept. -/
def rmSpaces (prev : Char) : Str → Str
  | [] => []
  | c :: rest =>
    if c = ' ' then
      let chnext := (rest.head?).getD (Char.ofNat 0)
      if (isAlnumCh prev || prev = '_') && (isAlnumCh chnext || chnext = '_') then
        ' ' :: rmSpaces ' ' rest
      else rmSpaces prev rest
    else c :: rmSpaces c rest

/-- `Preprocessor::getdef`: extract the DEF of an `#ifdef DEF`-like line.
With `wantDef = true` the line must be `#ifdef` / `#if` / `#elif` (but not
`#elif !`); with `wantDef = false` it must be `#ifndef` or `#elif !`. -/
def getdef (line : Str) (wantDef : Bool) : Str :=
  if line = [] || line.head? ≠ some '#' then []
  else if wantDef && !startsW (SL "#ifdef ") line && !startsW (SL "#if ") line &&
      (!startsW (SL "#elif ") line || startsW (SL "#elif !") line) then []
  else if !wantDef && !startsW (SL "#ifndef ") line &&
      !startsW (SL "#elif !") line then []
  else
    let line :=
      if startsW (SL "#if defined ") line then line.drop 11
      else if startsW (SL "#elif !defined(") line then
        let l2 := line.drop 15
        match findSubFrom l2 (SL ")") 0 with
        | some p => eraseAt l2 p 1
        | none => l2
      else
        match findSubFrom line (SL " ") 0 with
        | some p => line.drop p
        | none => []
    rmSpaces (Char.ofNat 0) line

/-! ### Modelled external tokenizer

`simplifyCondition`, `getcfgs` and `PreprocessorMacro` hand strings to the
external `Tokenizer` class, whose implementation (tokenize.cpp) is not part
of src/lib/preprocessor.cpp.  The token splitting below is modelled from the
spec (sections 4.6 and 9): conditions and macro bodies are treated as token
sequences of identifiers, numbers, string/char literals and operators. -/

/-- Modelled from the spec: a string or character literal is read as one
token, honouring backslash escapes.  Returns the token tail (up to and
including the closing quote) and the rest. -/
def litToken (q : Char) : Str → (Str × Str)
  | [] => ([], [])
  | c :: rest =>
    if c = q then ([q], rest)
    else if c = '\\' then
      match rest with
      | [] => (['\\'], [])
      | d :: r2 =>
        let (t, rr) := litToken q r2
        ('\\' :: d :: t, rr)
    else
      let (t, rr) := litToken q rest
      (c :: t, rr)

/-- Two-character operator tokens recognised by the modelled tokenizer. -/
def twoCharOps : List Str :=
  [SL "&&", SL "||", SL "==", SL "!=", SL "<=", SL ">=", SL "<<", SL ">>",
   SL "##", SL "->", SL "++", SL "--"]

/-- Modelled from the spec: `Tokenizer::createTokens` — split a string into
identifier, number, literal and operator tokens; whitespace separates
tokens.  In this model tokenization never fails. -/
def createTokens : Nat → Str → List Str
  | 0, _ => []
  | _ + 1, [] => []
  | fuel + 1, c :: rest =>
    if isSpaceCh c then createTokens fuel rest
    else if isAlphaCh c || c = '_' then
      let tl := rest.takeWhile (fun d => isAlnumCh d || d = '_')
      (c :: tl) :: createTokens fuel (rest.drop tl.length)
    else if isDigitCh c then
      let tl := rest.takeWhile (fun d => isAlnumCh d || d = '_' || d = '.')
      (c :: tl) :: createTokens fuel (rest.drop tl.length)
    else if c = '"' || c = '\'' then
      let (t, rr) := litToken c rest
      (c :: t) :: createTokens fuel rr
    else if c = '#' &&
        (match rest with
         | d :: _ => isAlphaCh d || d = '_'
         | [] => false) then
      -- preprocessor.cpp expects stringification tokens of the shape
      -- `#param` (code() line 2321), so `#` glues to a following name
      let tl := rest.takeWhile (fun d => isAlnumCh d || d = '_')
      (c :: tl) :: createTokens fuel (rest.drop tl.length)
    else
      match rest with
      | d :: rest2 =>
        if twoCharOps.contains [c, d] then [c, d] :: createTokens fuel rest2
        else [c] :: createTokens fuel rest
      | [] => [[c]]

/-- Tokenize a whole string with enough fuel. -/
def tokenizeStr (s : Str) : List Str := createTokens (s.length + 1) s

/-- `Token::isName` (`%var%`): the token starts with a letter or `_`. -/
def isNameTok (t : Str) : Bool :=
  match t with
  | c :: _ => isAlphaCh c || c = '_'
  | [] => false

/-- `Token::isNumber` (`%num%`): the token starts with a digit. -/
def isNumTok (t : Str) : Bool :=
  match t with
  | c :: _ => isDigitCh c
  | [] => false

/-- A token that is a plain decimal integer literal, and its value. -/
def intTokVal (t : Str) : Option Int :=
  if t ≠ [] && t.all isDigitCh then
    some (t.foldl (fun a c => a * 10 + (c.toNat - '0'.toNat)) (0 : Int))
  else none

/-! ### `simplifyCondition` (preprocessor.cpp lines 1222-1351) -/

/-- The variable-substitution pass of `simplifyCondition` (lines 1256-1313):
`defined(X)` / `defined X` become `1`/`0`; a configured identifier is
replaced by its tokenized value, by `1` when the value is empty and the
identifier stands alone between boolean operators, and is deleted
otherwise (`deleteThis` also steps over the following token). -/
def scSubstGo (cfg : StrMap) (matchMode : Bool) :
    Nat → Option Str → List Str → List Str
  | 0, _, ts => ts
  | _ + 1, _, [] => []
  | fuel + 1, prev, t :: rest =>
    if !isNameTok t then t :: scSubstGo cfg matchMode fuel (some t) rest
    else if t = SL "defined" &&
        (match rest with
         | a :: v :: b :: _ => a = SL "(" && isNameTok v && b = SL ")"
         | _ => false) then
      match rest with
      | _ :: v :: _ :: rest2 =>
        if mapHasKey cfg v then
          SL "1" :: scSubstGo cfg matchMode fuel (some (SL "1")) rest2
        else if matchMode then
          SL "0" :: scSubstGo cfg matchMode fuel (some (SL "0")) rest2
        else t :: scSubstGo cfg matchMode fuel (some t) rest
      | _ => [t]
    else if t = SL "defined" &&
        (match rest with
         | v :: _ => isNameTok v
         | _ => false) then
      match rest with
      | v :: rest2 =>
        if mapHasKey cfg v then
          SL "1" :: scSubstGo cfg matchMode fuel (some (SL "1")) rest2
        else if matchMode then
          SL "0" :: scSubstGo cfg matchMode fuel (some (SL "0")) rest2
        else t :: scSubstGo cfg matchMode fuel (some t) rest
      | _ => [t]
    else
      match mapFind cfg t with
      | none => t :: scSubstGo cfg matchMode fuel (some t) rest
      | some value =>
        if value ≠ [] then
          let vt := tokenizeStr value
          match vt with
          | [] => t :: scSubstGo cfg matchMode fuel (some t) rest
          | _ => vt ++ scSubstGo cfg matchMode fuel vt.getLast? rest
        else
          let prevOk := prev = none || prev = some (SL "&&") ||
            prev = some (SL "||") || prev = some (SL "(")
          let nextOk :=
            match rest with
            | [] => true
            | r1 :: _ => r1 = SL "&&" || r1 = SL "||" || r1 = SL ")"
          if prevOk && nextOk then
            SL "1" :: scSubstGo cfg matchMode fuel (some (SL "1")) rest
          else
            match rest with
            | [] => []
            | r1 :: rest2 => r1 :: scSubstGo cfg matchMode fuel (some r1) rest2

/-- Modelled from the spec: one pass of `Tokenizer::simplifyCalculations`
(tokenize.cpp is external) — fold the leftmost `NUM op NUM` into its value. -/
def calcPass : Nat → List Str → (List Str × Bool)
  | 0, ts => (ts, false)
  | fuel + 1, t1 :: t2 :: t3 :: rest =>
    match intTokVal t1, intTokVal t3 with
    | some a, some b =>
      let r : Option Int :=
        if t2 = SL "+" then some (a + b)
        else if t2 = SL "-" then some (a - b)
        else if t2 = SL "*" then some (a * b)
        else if t2 = SL "/" then (if b = 0 then none else some (a / b))
        else if t2 = SL "%" then (if b = 0 then none else some (a % b))
        else if t2 = SL "==" then some (if a = b then 1 else 0)
        else if t2 = SL "!=" then some (if a = b then 0 else 1)
        else if t2 = SL "<" then some (if a < b then 1 else 0)
        else if t2 = SL "<=" then some (if a ≤ b then 1 else 0)
        else if t2 = SL ">" then some (if b < a then 1 else 0)
        else if t2 = SL ">=" then some (if b ≤ a then 1 else 0)
        else if t2 = SL "&&" then some (if a ≠ 0 && b ≠ 0 then 1 else 0)
        else if t2 = SL "||" then some (if a ≠ 0 || b ≠ 0 then 1 else 0)
        else none
      match r with
      | some v => (SL (toString v) :: rest, true)
      | none =>
        let (ts, m) := calcPass fuel (t2 :: t3 :: rest)
        (t1 :: ts, m)
    | _, _ =>
      let (ts, m) := calcPass fuel (t2 :: t3 :: rest)
      (t1 :: ts, m)
  | _, ts => (ts, false)

/-- The `! %num%` folding loop inside `simplifyCondition` (lines 1321-1327). -/
def bangPass : Nat → List Str → (List Str × Bool)
  | 0, ts => (ts, false)
  | fuel + 1, t :: n :: rest =>
    if t = SL "!" && isNumTok n then
      let v := if n = SL "0" then SL "1" else SL "0"
      let (ts, _) := bangPass fuel rest
      (v :: ts, true)
    else
      let (ts, m) := bangPass fuel (n :: rest)
      (t :: ts, m)
  | _, ts => (ts, false)

/-- The fixed-point simplification loop of `simplifyCondition`
(lines 1316-1328), with fuel bounding the number of rounds. -/
def scFixGo : Nat → List Str → List Str
  | 0, ts => ts
  | fuel + 1, ts =>
    let (ts1, m1) := calcPass (ts.length + 1) ts
    let (ts2, m3) := bangPass (ts1.length + 1) ts1
    if m1 || m3 then scFixGo fuel ts2 else ts2

/-- The pass turning a nonzero number between boolean operators into `1`
(lines 1330-1336). -/
def numBetweenOps : Nat → List Str → List Str
  | 0, ts => ts
  | fuel + 1, a :: n :: b :: rest =>
    if (a = SL "(" || a = SL "||" || a = SL "&&") && isNumTok n &&
        (b = SL "&&" || b = SL "||" || b = SL ")") then
      let n2 := if n = SL "0" then n else SL "1"
      a :: numBetweenOps fuel (n2 :: b :: rest)
    else a :: numBetweenOps fuel (n :: b :: rest)
  | _, ts => ts

/-- One replacement step of the `X || 1` collapse (lines 1338-1344):
find the leftmost `(|| X || 1` window and drop `X ||`. -/
def orOneFind : Nat → List Str → Option (List Str)
  | 0, _ => none
  | fuel + 1, a :: x :: o :: one :: rest =>
    if (a = SL "(" || a = SL "||") && o = SL "||" && one = SL "1" then
      some (a :: one :: rest)
    else
      (orOneFind fuel (x :: o :: one :: rest)).map (fun ts2 => a :: ts2)
  | _ + 1, _ => none

/-- The `X || 1` collapse loop (lines 1338-1344), run to a fixed point. -/
def orOnePass : Nat → List Str → List Str
  | 0, ts => ts
  | fuel + 1, ts =>
    match orOneFind (ts.length + 1) ts with
    | some ts2 => orOnePass fuel ts2
    | none => ts

/-- The general branch of `simplifyCondition`: substitution, fixed-point
simplification, the two cleanup passes and the final verdict; the condition
string is only rewritten when the leading tokens read `( 1 )`, `( 1 ||` or
`( 0 )`. -/
def scVerdict (cfg : StrMap) (matchMode : Bool) (condition : Str)
    (toks : List Str) : Str :=
  let ts1 := scSubstGo cfg matchMode toks.length none toks
  let ts2 := scFixGo (ts1.length + condition.length + 10) ts1
  let ts3 := numBetweenOps (ts2.length + 1) ts2
  let ts4 := orOnePass (ts3.length + 1) ts3
  match ts4 with
  | x :: y :: z :: _ =>
    if x = SL "(" && y = SL "1" && z = SL ")" then SL "1"
    else if x = SL "(" && y = SL "1" && z = SL "||" then SL "1"
    else if x = SL "(" && y = SL "0" && z = SL ")" then SL "0"
    else condition
  | _ => condition

/-- `Preprocessor::simplifyCondition`: hand `"(" + condition + ")"` to the
(modelled) tokenizer; solve the leading shapes `( X )` and `( ! X )`
directly, otherwise run the general simplification. -/
def simplifyCondition (cfg : StrMap) (condition : Str) (matchMode : Bool) : Str :=
  let toks := tokenizeStr ('(' :: condition ++ [')'])
  if (match toks with
      | a :: v :: b :: _ => a = SL "(" && isNameTok v && b = SL ")"
      | _ => false) then
    match toks with
    | _ :: v :: _ =>
      (match mapFind cfg v with
       | some value => if value = SL "0" then SL "0" else SL "1"
       | none => if matchMode then SL "0" else condition)
    | _ => condition
  else if (match toks with
      | a :: bng :: w :: d :: _ =>
        a = SL "(" && bng = SL "!" && isNameTok w && d = SL ")"
      | _ => false) then
    match toks with
    | _ :: _ :: w :: _ =>
      (match mapFind cfg w with
       | none => SL "1"
       | some value =>
         if value = SL "0" then SL "1"
         else if matchMode then SL "0" else condition)
    | _ => condition
  else scVerdict cfg matchMode condition toks

/-- `Preprocessor::match_cfg_def` (lines 1353-1380). -/
def match_cfg_def (cfg : StrMap) (def0 : Str) : Bool :=
  let d := simplifyCondition cfg def0 true
  if mapHasKey cfg d then true
  else if d = SL "0" then false
  else if d = SL "1" then true
  else false

/-! ### `getcfgs` (preprocessor.cpp lines 881-1219) -/

/-- The parenthesis balance check applied to an extracted DEF
(lines 962-971): scan stops early once the balance goes negative. -/
def parBalance : Int → Str → Int
  | par, [] => par
  | par, c :: rest =>
    if c = '(' then parBalance (par + 1) rest
    else if c = ')' then
      (if par - 1 < 0 then par - 1 else parBalance (par - 1) rest)
    else parBalance par rest

/-- The `#define` name-validity scan of `getcfgs` (lines 923-930): from
position 8 up to the first space, only identifier characters are allowed,
digits only after the first position. -/
def defineValidGo (first : Bool) : Str → Bool
  | [] => true
  | c :: rest =>
    if c = ' ' then true
    else if c = '_' || isAlphaCh c || (!first && isDigitCh c) then
      defineValidGo false rest
    else false

/-- Building the configuration string from the open-guard list
(lines 1009-1040): stop at `"0"`, skip `"1"` and `"!"`, join with `;`,
skipping a guard equal to the whole accumulated string. -/
def buildCfg : List Str → Str → Str
  | [], acc => acc
  | d :: rest, acc =>
    if d = SL "0" then acc
    else if d = SL "1" || d = SL "!" then buildCfg rest acc
    else if acc ≠ d then
      buildCfg rest (if acc = [] then d else acc ++ ';' :: d)
    else buildCfg rest acc

/-- Mutable state of the configuration-enumeration walk. -/
structure CfgState where
  ret : List Str := [[]]
  deflist : List Str := []
  ndeflist : List Str := []
  defines : StrSet := []
  filelevel : Nat := 0
  includeguard : Bool := false
  linenr : Nat := 0
  errors : List CppError := []

/-- One `#define` line inside the walk: record the defined name (with `=`
for a parameterised value) in the `defines` set, or clear the line when
the name is invalid. -/
def cfgDefineLine (line : Str) (st : CfgState) : Str × CfgState :=
  if defineValidGo true (line.drop 8) then
    match findSubFrom line (SL " ") 8 with
    | none => (line, { st with defines := setInsert (line.drop 8) st.defines })
    | some _ =>
      let s := line.drop 8
      let s2 :=
        match findSubFrom s (SL " ") 0 with
        | some p => s.set p '='
        | none => s
      (line, { st with defines := setInsert s2 st.defines })
  else ([], st)

/-- The `varmap` built from `defines` entries containing `=`
(lines 990-1002). -/
def definesVarmap (defines : StrSet) : StrMap :=
  defines.foldl
    (fun m d =>
      match findSubFrom d (SL "=") 0 with
      | none => m
      | some p => mapInsert (d.take p) (d.drop (p + 1)) m)
    []

/-- The conditional-directive block of a `getcfgs` walk step
(lines 956-1065): the `#ifdef` / `#ifndef` / `#if` / `#elif` handling that
extends `ret`, and the `#else` / `#endif` updates to `deflist` /
`ndeflist`.  The error value is the `preprocessor974` message (emitted at
source line 974 with `__LINE__` in its id) that aborts enumeration on
mismatched parentheses. -/
def cfgCond (filename : Str) (line : Str) (st : CfgState) :
    Except CppError CfgState :=
  let def1 := getdef line true
      let defNeg := if def1 = [] then (getdef line false, true) else (def1, false)
      let def0 := defNeg.1
      let fromNeg := defNeg.2
      if def0 ≠ [] then
        if parBalance 0 def0 ≠ 0 then
          .error ⟨SL "preprocessor974", filename, st.linenr⟩
        else
          let def2 := simplifyCondition (definesVarmap st.defines) def0 false
          let deflist :=
            if st.deflist ≠ [] && startsW (SL "#elif ") line then
              st.deflist.dropLast
            else st.deflist
          let deflist := deflist ++ [def2]
          let cfgStr := buildCfg deflist []
          let dn :=
            if fromNeg then
              (deflist.dropLast ++ [SL "!"],
               st.ndeflist ++ [(deflist.getLast?).getD []])
            else (deflist, st.ndeflist)
          let ret :=
            if st.ret.contains cfgStr then st.ret else st.ret ++ [cfgStr]
          .ok { st with ret := ret, deflist := dn.1, ndeflist := dn.2 }
      else if startsW (SL "#else") line && st.deflist ≠ [] then
        if (st.deflist.getLast?).getD [] = SL "!" then
          .ok { st with
            deflist := st.deflist.dropLast ++
              [(st.ndeflist.getLast?).getD []],
            ndeflist := st.ndeflist.dropLast }
        else
          let tempDef :=
            if (st.deflist.getLast?).getD [] = SL "1" then SL "0" else SL "1"
          .ok { st with deflist := st.deflist.dropLast ++ [tempDef] }
      else if startsW (SL "#endif") line && st.deflist ≠ [] then
        if (st.deflist.getLast?).getD [] = SL "!" then
          .ok { st with deflist := st.deflist.dropLast,
                        ndeflist := st.ndeflist.dropLast }
        else .ok { st with deflist := st.deflist.dropLast }
      else .ok st

/-- The per-line step of the `getcfgs` walk (lines 900-1066): file
bookkeeping, the `#define` recording, the include-guard check, and then
the conditional-directive block `cfgCond`. -/
def cfgLine (filename : Str) (line : Str) (st : CfgState) :
    Except CppError CfgState :=
  let st := { st with linenr := st.linenr + 1 }
  if line = [] then .ok st
  else if startsW (SL "#file ") line then
    .ok { st with includeguard := true, filelevel := st.filelevel + 1 }
  else if line = SL "#endfile" then
    .ok { st with includeguard := false,
                  filelevel := st.filelevel - 1 }
  else
    let p := if startsW (SL "#define ") line then cfgDefineLine line st
             else (line, st)
    let line := p.1
    let st := p.2
    let st :=
      if line ≠ [] && !startsW (SL "#if") line then
        { st with includeguard := false }
      else st
    if line = [] || line.head? ≠ some '#' then .ok st
    else if st.includeguard then .ok st
    else cfgCond filename line st

/-- The walk over all lines; an error aborts, which in `getcfgs` produces
the empty configuration list plus the error message. -/
def cfgWalk (filename : Str) : CfgState → List Str → Except CppError CfgState
  | st, [] => .ok st
  | st, l :: ls =>
    match cfgLine filename l st with
    | .error e => .error e
    | .ok st2 => cfgWalk filename st2 ls

/-- One round of the loop removing an already-`#define`d name from a
configuration string (lines 1084-1094); the name is erased only when
bounded by `;` or the string ends. -/
def rmDefineName (fuel : Nat) (defineName : Str) (cfg : Str) (pos : Nat) : Str :=
  match fuel with
  | 0 => cfg
  | fuel + 1 =>
    if defineName = [] then cfg
    else
      match findSubFrom cfg defineName pos with
      | none => cfg
      | some p1 =>
        if p1 > 0 && charAt cfg (p1 - 1) ≠ ';' then
          rmDefineName fuel defineName cfg (p1 + 1)
        else if p1 + defineName.length < cfg.length &&
            charAt cfg (p1 + defineName.length) ≠ ';' then
          rmDefineName fuel defineName cfg (p1 + 1)
        else
          rmDefineName fuel defineName (eraseAt cfg p1 defineName.length) p1

/-- Collapse `";;"` pairs (line 1103-1105). -/
def collapseSemis (fuel : Nat) (cfg : Str) (pos : Nat) : Str :=
  match fuel with
  | 0 => cfg
  | fuel + 1 =>
    match findSubFrom cfg (SL ";;") pos with
    | none => cfg
    | some p => collapseSemis fuel (eraseAt cfg p 1) p

/-- The defined-constants removal pass over one configuration
(lines 1069-1109). -/
def rmDefinedPass (defines : StrSet) (cfg0 : Str) : Str :=
  let cfg := defines.foldl
    (fun cfg d =>
      let defineName :=
        match findSubFrom d (SL "=") 0 with
        | some p => d.take p
        | none => d
      rmDefineName (cfg.length + 2) defineName cfg 0)
    cfg0
  if cfg.length ≠ cfg0.length then
    let cfg := cfg.dropWhile (· = ';')
    let cfg := (cfg.reverse.dropWhile (· = ';')).reverse
    collapseSemis (cfg.length + 1) cfg 0
  else cfg0

/-- The token scan of the `&&`-conversion pass (lines 1134-1149),
collecting identifiers from `defined ( X )` and `X ;` shapes. -/
def andScan : Nat → List Str → StrSet → StrSet
  | 0, _, acc => acc
  | fuel + 1, t1 :: t2 :: t3 :: t4 :: rest, acc =>
    if t1 = SL "defined" && t2 = SL "(" && isNameTok t3 && t4 = SL ")" then
      match rest with
      | a :: rest2 =>
        if a = SL "&&" then andScan fuel rest2 (setInsert t3 acc)
        else andScan fuel (a :: rest2) (setInsert t3 acc)
      | [] => setInsert t3 acc
    else if isNameTok t1 && t2 = SL ";" then
      andScan fuel (t3 :: t4 :: rest) (setInsert t1 acc)
    else acc
  | fuel + 1, t1 :: t2 :: rest, acc =>
    if isNameTok t1 && t2 = SL ";" then andScan fuel rest (setInsert t1 acc)
    else acc
  | _, _, acc => acc

/-- The `&&`-conversion of one configuration (lines 1111-1156): handled by
the (modelled) external tokenizer; `defined(A) && defined(B)` becomes the
sorted join `A;B`. -/
def andConvert (s : Str) : Str :=
  if containsSub s (SL "&&") then
    let toks := tokenizeStr s
    let vars := andScan (toks.length + 1) toks []
    let s2 := List.intercalate (SL ";") vars
    if s2 ≠ [] then s2 else s
  else s

/-- `unify(s, ';')` (lines 88-104): split on `;`, drop empty parts, insert
into a sorted set, join with `;`. -/
def unifySemi (s : Str) : Str :=
  let parts := (s.splitOnP (· = ';')).filter (· ≠ [])
  List.intercalate (SL ";") (parts.foldl (fun acc p => setInsert p acc) [])

/-- `ret.sort(); ret.unique();` via sorted insertion. -/
def sortUnique (l : List Str) : List Str :=
  l.foldl (fun acc s => setInsert s acc) []

/-- The cleanup scan of one configuration followed by `";"`
(lines 1172-1202): `;` separators, identifiers, and `=` followed by
digits are handled; anything else makes the configuration unhandled. -/
def cfgOkGo : Nat → Str → Bool
  | 0, _ => true
  | _ + 1, [] => true
  | fuel + 1, c :: rest =>
    if c = ';' then cfgOkGo fuel rest
    else if isAlphaCh c || c = '_' then
      let rest2 := (c :: rest).dropWhile (fun d => isAlnumCh d || d = '_')
      match rest2 with
      | '=' :: rest3 =>
        let rest4 := rest3.dropWhile (fun d => isDigitCh d)
        (match rest4 with
         | ';' :: _ => cfgOkGo fuel rest4
         | _ => false)
      | _ => cfgOkGo fuel rest2
    else false

/-- Is the configuration kept by the cleanup pass? -/
def cfgOk (cfg : Str) : Bool := cfgOkGo (cfg.length + 2) (cfg ++ [';'])

/-- `Preprocessor::getcfgs`: the walk followed by the defined-constants
removal, `&&` conversion, canonicalization, sort/unique, and the
unhandled-configuration cleanup.  Aborting on mismatched parentheses
returns the empty list. -/
def getcfgs (settings : Option Settings) (filedata : Str) (filename : Str) :
    List Str × List CppError :=
  match cfgWalk filename {} (splitLines filedata) with
  | .error e =>
    ([], [e])
  | .ok st =>
    let l1 := st.ret.map (rmDefinedPass st.defines)
    let l2 := l1.map andConvert
    let l3 := l2.map unifySemi
    let l4 := sortUnique l3
    let kept := l4.filter (fun c => cfgOk c)
    let dropped := l4.filter (fun c => !cfgOk c)
    let errs :=
      match settings with
      | some s =>
        if s.debugwarnings then
          dropped.map (fun _ => (⟨SL "debug", [], 0⟩ : CppError))
        else []
      | none => []
    (kept, st.errors ++ errs)

/-! ### `getlines` and macro expansion (preprocessor.cpp lines 1999-2704) -/

/-- The string subloop of `getlines` (lines 2406-2425).  `isHash` tells
whether the chunk built so far starts with `#`; `c` is the loop variable
holding the previously read character.  Returns the appended characters,
the remaining input, and whether `getlines` returns immediately. -/
def glStr (isHash : Bool) (q : Char) : Char → Str → (Str × Str × Bool)
  | c, input =>
    if c = q then ([], input, false)
    else if c = '\\' then
      match input with
      | [] => ([], [], true)
      | d :: rest =>
        match rest with
        | [] => ([d], [], true)
        | e :: rest2 =>
          if e = '\n' && isHash then ([d], rest2, true)
          else
            let r := glStr isHash q e rest2
            (d :: e :: r.1, r.2.1, r.2.2)
    else
      match input with
      | [] => ([], [], true)
      | e :: rest =>
        if e = '\n' && isHash then ([], rest, true)
        else
          let r := glStr isHash q e rest
          (e :: r.1, r.2.1, r.2.2)

/-- The chunk reader `getlines` (lines 2399-2446): like `std::getline` but
a chunk only ends at a newline when parentheses are balanced and, for
non-directive chunks, at a top-level `;`.  Returns (chunk, rest). -/
def getlinesGo (fuel : Nat) (parlevel : Int) (acc : Str) : Str → (Str × Str)
  | [] => (acc, [])
  | ch :: rest =>
    match fuel with
    | 0 => (acc, ch :: rest)
    | fuel + 1 =>
      if ch = '\'' || ch = '"' then
        let isHash := acc.head? = some '#'
        let r := glStr isHash ch (Char.ofNat 0) rest
        if r.2.2 then (acc ++ ch :: r.1, r.2.1)
        else getlinesGo fuel parlevel (acc ++ ch :: r.1) r.2.1
      else if ch = '(' then getlinesGo fuel (parlevel + 1) (acc ++ [ch]) rest
      else if ch = ')' then getlinesGo fuel (parlevel - 1) (acc ++ [ch]) rest
      else if ch = '\n' then
        if acc.head? = some '#' then (acc, rest)
        else if rest.head? = some '#' then (acc ++ [ch], rest)
        else getlinesGo fuel parlevel (acc ++ [ch]) rest
      else if acc.head? ≠ some '#' && parlevel ≤ 0 && ch = ';' then
        (acc ++ [ch], rest)
      else getlinesGo fuel parlevel (acc ++ [ch]) rest

/-- One `getlines` call on the remaining input. -/
def getlines (input : Str) : Str × Str :=
  getlinesGo (input.length + 1) 0 [] input

/-- `skipstring` (lines 2004-2014): advance `pos` from an opening quote to
the matching closing quote, skipping backslash escapes; may run one past
the end on a trailing backslash. -/
def skipstringGo (line : Str) (q : Char) : Nat → Nat → Nat
  | 0, p => p
  | fuel + 1, p =>
    if p < line.length then
      if charAt line p = q then p
      else if charAt line p = '\\' then skipstringGo line q fuel (p + 2)
      else skipstringGo line q fuel (p + 1)
    else p

/-- `skipstring` entry point; the position advances every step, so
`line.length + 1` fuel always suffices. -/
def skipstringPos (line : Str) (pos : Nat) : Nat :=
  skipstringGo line (charAt line pos) (line.length + 1) (pos + 1)

/-- The character loop of `getparams` (lines 2047-2099).  Per iteration:
parenthesis tracking, strings kept whole, newline counting, `,` parameter
splits at depth one, space normalization.  Returns (params, newline count,
end parenthesis found, final position). -/
def getparamsLoop (line : Str) : Nat → Nat → Int → Str → List Str → Nat →
    (List Str × Nat × Bool × Nat)
  | 0, pos, _, _, params, nls => (params, nls, false, pos)
  | fuel + 1, pos, parlevel, par, params, nls =>
    if pos < line.length then
      let c := charAt line pos
      if c = '(' then
        let pl := parlevel + 1
        if pl = 1 then getparamsLoop line fuel (pos + 1) pl par params nls
        else if pl ≥ 1 then
          getparamsLoop line fuel (pos + 1) pl (par ++ [c]) params nls
        else getparamsLoop line fuel (pos + 1) pl par params nls
      else if c = ')' then
        let pl := parlevel - 1
        if pl ≤ 0 then (params ++ [par], nls, true, pos)
        else getparamsLoop line fuel (pos + 1) pl (par ++ [c]) params nls
      else if c = '"' || c = '\'' then
        let p2 := skipstringPos line pos
        if p2 = line.length then (params, nls, false, p2)
        else
          let par2 := par ++ (line.drop pos).take (p2 + 1 - pos)
          getparamsLoop line fuel (p2 + 1) parlevel par2 params nls
      else if c = '\n' then
        getparamsLoop line fuel (pos + 1) parlevel par params (nls + 1)
      else if parlevel = 1 && c = ',' then
        getparamsLoop line fuel (pos + 1) parlevel [] (params ++ [par]) nls
      else if c = ' ' then
        let par2 :=
          if par ≠ [] && isAlnumCh ((par.getLast?).getD (Char.ofNat 0)) then
            par ++ [' ']
          else par
        getparamsLoop line fuel (pos + 1) parlevel par2 params nls
      else if parlevel ≥ 1 then
        getparamsLoop line fuel (pos + 1) parlevel (par ++ [c]) params nls
      else getparamsLoop line fuel (pos + 1) parlevel par params nls
    else (params, nls, false, pos)

/-- `getparams` (lines 2024-2100): skip one leading space, require `(`,
then run the character loop. -/
def getparams (line : Str) (pos : Nat) : (List Str × Nat × Bool × Nat) :=
  let pos := if charAt line pos = ' ' then pos + 1 else pos
  if charAt line pos ≠ '(' then ([], 0, false, pos)
  else getparamsLoop line (line.length + 2) pos 0 [] [] 0

/-- The record behind `class PreprocessorMacro` (lines 2102-2387). -/
structure PPMacro where
  macroText : Str
  toks : List Str
  name : Str
  params : List Str
  variadic : Bool
  nopar : Bool

/-- The macro-parameter scan of the `PreprocessorMacro` constructor
(lines 2208-2221): walk the tokens after `NAME (` collecting parameter
names, stopping at `)`, with `. . . )` marking a variadic macro. -/
def ppParamScan (prev : Str) : List Str → (List Str × Bool)
  | [] => ([], false)
  | t :: rest =>
    if t = SL ")" then ([], false)
    else if t = SL "." &&
        (match rest with
         | a :: b :: c :: _ => a = SL "." && b = SL "." && c = SL ")"
         | _ => false) then
      ((if prev = SL "," then [SL "__VA_ARGS__"] else []), true)
    else if isNameTok t then
      let r := ppParamScan t rest
      (t :: r.1, r.2)
    else
      let r := ppParamScan t rest
      r

/-- The `PreprocessorMacro` constructor (lines 2190-2229): tokenize the
text after `#define`, read the name, and classify the parameter list. -/
def mkMacro (mtext : Str) : PPMacro :=
  let toks := tokenizeStr mtext
  let name :=
    match toks with
    | t :: _ => if isNameTok t then t else []
    | [] => []
  let pos := findCharOfFrom mtext (SL " (") 0
  let hasParen : Bool :=
    match pos with
    | some p => charAt mtext p = '('
    | none => false
  if hasParen then
    match toks with
    | t1 :: t2 :: t3 :: rest =>
      if isNameTok t1 && t2 = SL "(" && isNameTok t3 then
        let r := ppParamScan t2 (t3 :: rest)
        ⟨mtext, toks, name, r.1, r.2, false⟩
      else if isNameTok t1 && t2 = SL "(" && t3 = SL "." &&
          (match rest with
           | a :: b :: c :: _ => a = SL "." && b = SL "." && c = SL ")"
           | _ => false) then
        ⟨mtext, toks, name, [], true, false⟩
      else if isNameTok t1 && t2 = SL "(" && t3 = SL ")" then
        ⟨mtext, toks, name, [], false, true⟩
      else ⟨mtext, toks, name, [], false, false⟩
    | _ => ⟨mtext, toks, name, [], false, false⟩
  else ⟨mtext, toks, name, [], false, false⟩

/-- The macro table `std::map<std::string, PreprocessorMacro *>` as a
sorted association list. -/
abbrev MacroMap := List (Str × PPMacro)

/-- Insert or replace a macro under its name. -/
def mmInsert (k : Str) (v : PPMacro) : MacroMap → MacroMap
  | [] => [(k, v)]
  | (k2, v2) :: rest =>
    if lexLt k k2 then (k, v) :: (k2, v2) :: rest
    else if k = k2 then (k, v) :: rest
    else (k2, v2) :: mmInsert k v rest

/-- Macro lookup by name. -/
def mmFind (m : MacroMap) (k : Str) : Option PPMacro :=
  (m.find? (fun p => p.1 = k)).map (·.2)

/-- Macro removal by name. -/
def mmErase (m : MacroMap) (k : Str) : MacroMap := m.filter (fun p => p.1 ≠ k)

/-- The `__VA_ARGS__` textual replacement loop (lines 2286-2291). -/
def vaReplace (fuel : Nat) (s : Str) (text : Str) (pos : Nat) : Str :=
  match fuel with
  | 0 => text
  | fuel + 1 =>
    match findSubFrom text (SL "__VA_ARGS__") pos with
    | none => text
    | some p =>
      vaReplace fuel s (insertAt (eraseAt text p 11) p s) (p + s.length)

/-- Truncate at the first `\r` or `\n` (macro bodies end at the line end). -/
def truncAtNL (s : Str) : Str :=
  match findCharOfFrom s [Char.ofNat 13, '\n'] 0 with
  | some p => s.take p
  | none => s

/-- Stringification of an argument for `#param` (lines 2341-2350):
backslashes and quotes are escaped and the text is wrapped in quotes. -/
def stringifyArg (s : Str) : Str :=
  '"' :: (s.flatMap (fun c => if c = '\\' || c = '"' then ['\\', c] else [c]))
    ++ ['"']

/-- Spacing after a body token (lines 2376-2380): a space separates
name/number token pairs and `> >`. -/
def mcSpace (t : Str) (rest : List Str) : Str :=
  match rest with
  | n :: _ =>
    if (isNameTok t && isNameTok n) || (isNameTok t && isNumTok n) ||
        (isNumTok t && isNameTok n) || (t = SL ">" && n = SL ">") then
      [' ']
    else []
  | [] => []

/-- The nopar-macro expansion applied to a substituted token
(lines 2358-2368): when the preceding token is not `##` and the token
names a macro without `(` in its definition, the macro text after its
first space replaces the token. -/
def mcNopar (macros : MacroMap) (prevStr : Str) (str : Str) : Str :=
  if prevStr ≠ SL "##" then
    match mmFind macros str with
    | some m2 =>
      if !containsSub m2.macroText (SL "(") then
        match findSubFrom m2.macroText (SL " ") 0 with
        | some p => m2.macroText.drop p
        | none => []
      else str
    | none => str
  else str

/-- The body-token loop of `PreprocessorMacro::code` for a parameterised
macro (lines 2314-2381), written over the remaining body tokens with the
previous token string, the `optcomma` flag and the accumulator.  `none`
models `return false` (too few arguments). -/
def mcLoop (m : PPMacro) (macros : MacroMap) (givenparams : List Str) :
    Str → Bool → Str → List Str → Option Str
  | _, _, acc, [] => some acc
  | prevStr, optcomma, acc, t :: rest =>
    if t = SL "##" then mcLoop m macros givenparams t optcomma acc rest
    else
      let stringify := t.head? = some '#' && isNameTok (t.drop 1)
      let str0 := if t.head? = some '#' then t.drop 1 else t
      if t.head? = some '#' || isNameTok t then
        match (m.params).findIdx? (fun p => p = str0) with
        | some i =>
          if m.variadic && (i = m.params.length - 1 ||
              (givenparams.length + 2 = m.params.length &&
               i + 1 = m.params.length - 1)) then
            let pieces := givenparams.drop (m.params.length - 1)
            let str :=
              (if optcomma && pieces ≠ [] then SL "," else []) ++
                List.intercalate (SL ",") pieces
            let acc2 := acc ++ mcNopar macros prevStr str ++ mcSpace t rest
            mcLoop m macros givenparams t false acc2 rest
          else if i ≥ givenparams.length then none
          else
            let arg := (givenparams.get? i).getD []
            let str := if stringify then stringifyArg arg else arg
            let acc2 := acc ++ mcNopar macros prevStr str ++ mcSpace t rest
            mcLoop m macros givenparams t false acc2 rest
        | none =>
          let acc2 := acc ++ mcNopar macros prevStr str0 ++ mcSpace t rest
          mcLoop m macros givenparams t false acc2 rest
      else
        if m.variadic && t = SL "," &&
            (match rest with
             | n :: _ => n = SL "##"
             | [] => false) then
          mcLoop m macros givenparams t true acc rest
        else
          let acc2 := acc ++ t ++ mcSpace t rest
          mcLoop m macros givenparams t false acc2 rest

/-- Token count of the `NAME ( p1 , p2 )` shape in `expandInnerMacros`:
`%var% ,|)` pairs consumed two at a time; the scan must consume all
remaining tokens.  Returns `none` when tokens are left over. -/
def innerArgCount : List Str → Nat → Option Nat
  | [], acc => some acc
  | t :: rest, acc =>
    if isNameTok t &&
        (match rest with
         | s :: _ => s = SL "," || s = SL ")"
         | [] => false) then
      match rest with
      | _ :: rest2 => innerArgCount rest2 (acc + 1)
      | [] => some acc
    else none

/-- `Token::findsimplematch`: index of the first token equal to `pat`. -/
def findTokIdx (toks : List Str) (pat : Str) : Option Nat :=
  toks.findIdx? (fun t => t = pat)

/-- Result of `PreprocessorMacro::code`: `none` is fuel exhaustion of the
model; `some none` is the C++ `return false` (too few arguments);
`some (some s)` is success with expansion `s`. -/
abbrev MCRes := Option (Option Str)

/-- `PreprocessorMacro::code` (lines 2263-2386): object-like and
`nopar`/pure-variadic macros copy their raw text (with `__VA_ARGS__`
substitution); parameterised macros pre-expand arguments of the shape
`NAME(…)` through `expandInnerMacros` (lines 2132-2181, recursing with
`NAME` removed from the table) and rebuild the body from tokens.  The
fuel only bounds that recursion depth (the table shrinks each round). -/
def macroCode : Nat → PPMacro → List Str → MacroMap → MCRes
  | 0, _, _, _ => none
  | fuel + 1, m, params2, macros =>
    if m.nopar || (m.params = [] && m.variadic) then
      let mc :=
        match findSubFrom m.macroText (SL ")") 0 with
        | some k => m.macroText.drop (k + 1)
        | none => m.macroText
      if mc = [] then some (some [])
      else
        let mc := mc.dropWhile (· = ' ')
        let mc := truncAtNL mc
        if !m.nopar then
          let s := List.intercalate (SL ",") params2
          some (some (vaReplace (mc.length + s.length + 12) s mc 0))
        else some (some mc)
    else if m.params = [] then
      match findCharOfFrom m.macroText (SL " \"") 0 with
      | none => some (some [])
      | some p =>
        let p2 := if charAt m.macroText p = ' ' then p + 1 else p
        some (some (truncAtNL (m.macroText.drop p2)))
    else
      -- expandInnerMacros
      let afterParen :=
        match findTokIdx m.toks (SL ")") with
        | some i => m.toks.drop i
        | none => []
      let inner : Option (List Str) :=
        match afterParen with
        | rp :: nm :: lp :: rest =>
          if rp = SL ")" && isNameTok nm && lp = SL "(" then
            match innerArgCount rest 0 with
            | none => some params2
            | some par =>
              if par ≠ params2.length then some params2
              else
                -- the per-argument loop (lines 2154-2178)
                params2.foldr
                  (fun param acc =>
                    match acc with
                    | none => none
                    | some done =>
                      let s := nm ++ ['(']
                      if startsW s param && param.getLast? = some ')' then
                        let r := getparams param (s.length - 1)
                        if r.2.2.2 = param.length - 1 && r.2.1 = 0 &&
                            r.2.2.1 && r.1.length = params2.length then
                          match mmFind macros nm with
                          | some innerMacro =>
                            (match macroCode fuel innerMacro r.1
                                (mmErase macros nm) with
                             | none => none
                             | some mr => some ((mr.getD []) :: done))
                          | none => some (param :: done)
                        else some (param :: done)
                      else some (param :: done))
                  (some [])
          else some params2
        | _ => some params2
      match inner with
      | none => none
      | some givenparams =>
        let body :=
          match findTokIdx m.toks (SL ")") with
          | some i => m.toks.drop (i + 1)
          | none => []
        some (mcLoop m macros givenparams (SL ")") false [] body)

/-- Result of the per-chunk macro scan of `expandMacros`. -/
inductive ScanRes where
  | done (line : Str)
  | fail (id : Str) (tmpLinenr : Nat)
  | fuelOut
deriving Repr, DecidableEq

/-- Replace-or-insert into the expansion-limit map (keyed by macro name;
within one chunk each name maps to one `PreprocessorMacro` object, so name
keys coincide with the C++ pointer keys). -/
def limSet (k : Str) (v : Nat) (l : List (Str × Nat)) : List (Str × Nat) :=
  (k, v) :: l.filter (fun p => p.1 ≠ k)

/-- Lookup in the expansion-limit map. -/
def limLookup (limits : List (Str × Nat)) (nm : Str) : Option Nat :=
  (limits.find? (fun p => p.1 = nm)).map (fun p => p.2)

/-- The macro-expansion scan over one chunk (lines 2538-2686): walk `pos`
over the line; count newlines; skip strings (unterminated ones abort with
`noQuoteCharPair`); at each identifier naming a macro, check the
expansion-limit map, read arguments if needed, expand, purge stale limits,
set the macro's limit to the end of the insertion, and resume at the start
of the inserted `$`-marked text. -/
def emScan (macros : MacroMap) : Nat → Str → Nat → List (Str × Nat) → Nat →
    ScanRes
  | 0, _, _, _, _ => .fuelOut
  | fuel + 1, line, pos, limits, tmpLinenr =>
    if pos < line.length then
      let c := charAt line pos
      let tmpLinenr := if c = '\n' then tmpLinenr + 1 else tmpLinenr
      if c = '"' || c = '\'' then
        let p2 := skipstringPos line pos + 1
        if p2 ≥ line.length then .fail (SL "noQuoteCharPair") tmpLinenr
        else emScan macros fuel line p2 limits tmpLinenr
      else if !(isAlphaCh c || c = '_') then
        emScan macros fuel line (pos + 1) limits tmpLinenr
      else
        let idTail := (line.drop (pos + 1)).takeWhile
          (fun d => isAlnumCh d || d = '_')
        let id := c :: idTail
        let idEnd := pos + 1 + idTail.length
        match mmFind macros id with
        | none => emScan macros fuel line idEnd limits tmpLinenr
        | some mac =>
          let limited : Bool :=
            match limLookup limits mac.name with
            | some lim => decide (idEnd ≤ line.length - lim)
            | none => false
          if limited then emScan macros fuel line idEnd limits tmpLinenr
          else if mac.params ≠ [] && idEnd ≥ line.length then
            emScan macros fuel line idEnd limits tmpLinenr
          else
            let needParams := mac.variadic || mac.nopar || mac.params ≠ []
            let g : List Str × Nat × Bool × Nat :=
              if needParams then getparams line idEnd
              else ([], 0, true, idEnd)
            let nls := g.2.1
            let pos2 := g.2.2.2
            if needParams && !g.2.2.1 then
              emScan macros fuel line idEnd limits tmpLinenr
            else
              let params1 : List Str := if g.1 = [([] : Str)] then [] else g.1
              if !mac.variadic && params1.length ≠ mac.params.length then
                emScan macros fuel line idEnd limits tmpLinenr
              else
                match macroCode fuel mac params1 macros with
                | none => .fuelOut
                | some none => .fail (SL "syntaxError") tmpLinenr
                | some (some tempMacro) =>
                  let macrocode := List.replicate nls '\n' ++ tempMacro
                  let pos2b := if needParams then pos2 + 1 else pos2
                  let limits := limits.filter
                    (fun p => decide (¬ (line.length - pos < p.2)))
                  let limits := limSet mac.name (line.length - pos2b) limits
                  let line2 := eraseAt line pos (pos2b - pos)
                  let glue : Bool := isAlnumCh (charAt line2 pos) ||
                    decide (charAt line2 pos = '_')
                  let macrocode := if glue then macrocode ++ [' ']
                                   else macrocode
                  let line3 := insertAt line2 pos ('$' :: macrocode)
                  emScan macros fuel line3 pos limits tmpLinenr
    else .done line

/-- State of the `expandMacros` chunk loop. -/
structure EmState where
  linenr : Nat := 1
  filename : Str
  fileinfo : List (Nat × Str) := []
  macros : MacroMap := []
  out : Str := []
  errors : List CppError := []

/-- The `expandMacros` chunk loop (lines 2468-2697): `#define` builds a
macro, `#undef` removes one, `#file`/`#endfile` maintain the position
stack, other directives pass through, and ordinary chunks get the macro
scan; a scan failure makes the whole function return the empty string.
An empty remaining input ends the loop (the final empty `getlines` chunk
of the C++ stream loop has no observable effect).  `none` is fuel
exhaustion of the model. -/
def emGo : Nat → EmState → Str → Option (Str × List CppError)
  | 0, _, _ => none
  | fuel + 1, st, input =>
    if input = [] then some (st.out, st.errors)
    else
      let gl := getlines input
      let line := gl.1
      let rest := gl.2
      if startsW (SL "#define ") line then
        let mac := mkMacro (line.drop 8)
        let macros :=
          if mac.name = [] then st.macros
          else if mac.name = SL "BOOST_FOREACH" then st.macros
          else mmInsert mac.name mac st.macros
        emGo fuel { st with macros := macros, out := st.out ++ ['\n'],
                            linenr := st.linenr + 1 } rest
      else if startsW (SL "#undef ") line then
        emGo fuel { st with macros := mmErase st.macros (line.drop 7),
                            out := st.out ++ ['\n'],
                            linenr := st.linenr + 1 } rest
      else if startsW (SL "#file \"") line then
        let emitted := line ++ ['\n']
        emGo fuel { st with
          fileinfo := (st.linenr, st.filename) :: st.fileinfo,
          filename := (line.drop 7).take (line.length - 8),
          linenr := 0 + countNL emitted,
          out := st.out ++ emitted } rest
      else if line = SL "#endfile" then
        let emitted := line ++ ['\n']
        let st :=
          match st.fileinfo with
          | (ln, fn) :: fi => { st with linenr := ln, filename := fn,
                                        fileinfo := fi }
          | [] => st
        emGo fuel { st with out := st.out ++ emitted,
                            linenr := st.linenr + countNL emitted } rest
      else if startsW (SL "#") line then
        let emitted := line ++ ['\n']
        emGo fuel { st with out := st.out ++ emitted,
                            linenr := st.linenr + countNL emitted } rest
      else
        match emScan st.macros fuel line 0 [] 0 with
        | .fuelOut => none
        | .fail id tmp =>
          some ([], st.errors ++ [⟨id, st.filename, st.linenr + tmp⟩])
        | .done line2 =>
          emGo fuel { st with out := st.out ++ line2,
                              linenr := st.linenr + countNL line2 } rest

/-- `Preprocessor::expandMacros` (lines 2448-2704). -/
def expandMacros (fuel : Nat) (code : Str) (filename : Str) :
    Option (Str × List CppError) :=
  emGo fuel { filename := filename } code

/-! ### `getcode` (preprocessor.cpp lines 1383-1600) -/

/-- Parsing a configuration string into the `cfgmap`
(lines 1395-1418): `A;B=2;C` becomes the entries A → "", B → "2",
C → "". -/
def parseCfgGo (cfg : Str) : Nat → Nat → StrMap → StrMap
  | 0, _, m => m
  | fuel + 1, pos, m =>
    match findCharOfFrom cfg (SL ";=") pos with
    | none => mapInsert (cfg.drop pos) [] m
    | some pos2 =>
      if charAt cfg pos2 = ';' then
        parseCfgGo cfg fuel (pos2 + 1)
          (mapInsert ((cfg.drop pos).take (pos2 - pos)) [] m)
      else
        let pos3 := pos2
        match findSubFrom cfg (SL ";") pos2 with
        | none =>
          mapInsert ((cfg.drop pos).take (pos3 - pos)) (cfg.drop (pos3 + 1)) m
        | some pos2b =>
          parseCfgGo cfg fuel (pos2b + 1)
            (mapInsert ((cfg.drop pos).take (pos3 - pos))
              ((cfg.drop (pos3 + 1)).take (pos2b - pos3 - 1)) m)

/-- The configuration map of a `getcode` call. -/
def parseCfgMap (cfg : Str) : StrMap :=
  if cfg = [] then [] else parseCfgGo cfg (cfg.length + 2) 0 []

/-- Mutable state of the `getcode` line loop.  The stacks `matching_ifdef`
and `matched_ifdef` keep their most recent element (the C++ `back()`) at
the head. -/
structure GcState where
  lineno : Nat := 0
  matchFlag : Bool := true
  matching_ifdef : List Bool := []
  matched_ifdef : List Bool := []
  cfgmap : StrMap := []
  filenames : List Str := []
  lineNumbers : List Nat := []
  errors : List CppError := []

/-- The `userUndefs` check of a `#define` line in `getcode`
(lines 1465-1480): the define is dropped when some user-undefined name
occurs in the line followed by end, space or `(`. -/
def undefHit (undefs : StrSet) (line : Str) : Bool :=
  undefs.any (fun u =>
    match findCharNotOfFrom line (SL " ") 8 with
    | none => false
    | some pos =>
      match findSubFrom line u pos with
      | none => false
      | some pos2 =>
        line.length = pos2 + u.length ||
        charAt line (pos2 + u.length) = ' ' ||
        charAt line (pos2 + u.length) = '(')

/-- Result of processing one non-`#pragma asm` line of `getcode`:
the rewritten line to emit, or the `#error` abort. -/
inductive GcAct where
  | emit (line : Str) (st : GcState)
  | abort (st : GcState)

/-- The conditional-directive block of the `getcode` line loop (lines
1457-1546): `#define` / `#undef` updates to the configuration map and the
`#elif` / `#ifdef` / `#ifndef` / `#else` / `#endif` updates to the two
conditional stacks. -/
def condStep (settings : Option Settings) (st : GcState) (line : Str) :
    GcState :=
  let def0 := getdef line true
  let ndef := getdef line false
  let emptymatch := st.matching_ifdef.isEmpty || st.matched_ifdef.isEmpty
  if startsW (SL "#define ") line then
      let m1 :=
        match settings with
        | some s => !undefHit s.userUndefs line
        | none => true
      let m2 := m1 && st.matching_ifdef.all (fun b => b)
      if m2 then
        let cfgmap :=
          match findCharOfFrom line (SL " (") 8 with
          | none => mapInsert (line.drop 8) [] st.cfgmap
          | some p =>
            if charAt line p = ' ' then
              let value := line.drop (p + 1)
              let value :=
                match mapFind st.cfgmap value with
                | some v => v
                | none => value
              mapInsert ((line.drop 8).take (p - 8)) value st.cfgmap
            else mapInsert ((line.drop 8).take (p - 8)) [] st.cfgmap
        { st with matchFlag := m2, cfgmap := cfgmap }
      else { st with matchFlag := m2 }
    else if startsW (SL "#undef ") line then
      { st with cfgmap := mapErase st.cfgmap (line.drop 7) }
    else if !emptymatch && startsW (SL "#elif !") line then
      if (st.matched_ifdef.head?).getD false then
        { st with matching_ifdef :=
            false :: st.matching_ifdef.tail }
      else if !match_cfg_def st.cfgmap ndef then
        { st with matching_ifdef := true :: st.matching_ifdef.tail,
                  matched_ifdef := true :: st.matched_ifdef.tail }
      else st
    else if !emptymatch && startsW (SL "#elif ") line then
      if (st.matched_ifdef.head?).getD false then
        { st with matching_ifdef := false :: st.matching_ifdef.tail }
      else if match_cfg_def st.cfgmap def0 then
        { st with matching_ifdef := true :: st.matching_ifdef.tail,
                  matched_ifdef := true :: st.matched_ifdef.tail }
      else st
    else if def0 ≠ [] then
      let v := match_cfg_def st.cfgmap def0
      { st with matching_ifdef := v :: st.matching_ifdef,
                matched_ifdef := v :: st.matched_ifdef }
    else if ndef ≠ [] then
      let v := !match_cfg_def st.cfgmap ndef
      { st with matching_ifdef := v :: st.matching_ifdef,
                matched_ifdef := v :: st.matched_ifdef }
    else if !emptymatch && line = SL "#else" then
      if st.matched_ifdef ≠ [] then
        { st with matching_ifdef :=
            (!((st.matched_ifdef.head?).getD false)) :: st.matching_ifdef.tail }
      else st
    else if startsW (SL "#endif") line then
      { st with matched_ifdef := st.matched_ifdef.tail,
                matching_ifdef := st.matching_ifdef.tail }
    else st

/-- The body of the `getcode` line loop for one line (lines 1457-1596):
the conditional-directive block `condStep` followed by the `#error` check
and the emission rewriting; `lineno` has already been incremented by the
caller. -/
def lineAction (settings : Option Settings) (st : GcState) (line : Str) :
    GcAct :=
  let st := condStep settings st line
  let st :=
    if line ≠ [] && line.head? = some '#' then
      { st with matchFlag := st.matching_ifdef.all (fun b => b) }
    else st
  if st.matchFlag && startsW (SL "#error") line then
    let st :=
      match settings with
      | some s =>
        if s.userDefines ≠ [] then
          { st with errors := st.errors ++
              [⟨SL "preprocessorErrorDirective",
                (st.filenames.head?).getD [], st.lineno⟩] }
        else st
      | none => st
    .abort st
  else
    if !st.matchFlag &&
        (startsW (SL "#define ") line || startsW (SL "#undef") line) then
      .emit [] st
    else if startsW (SL "#file \"") line || startsW (SL "#endfile") line ||
        startsW (SL "#define ") line || startsW (SL "#undef") line then
      if startsW (SL "#file \"") line then
        .emit line { st with
          filenames := (line.drop 7).take (line.length - 8) :: st.filenames,
          lineNumbers := st.lineno :: st.lineNumbers,
          lineno := 0 }
      else if startsW (SL "#endfile") line then
        let st :=
          if st.filenames.length > 1 then
            { st with filenames := st.filenames.tail }
          else st
        let st :=
          match st.lineNumbers with
          | n :: rest => { st with lineno := n, lineNumbers := rest }
          | [] => st
        .emit line st
      else .emit line st
    else if !st.matchFlag || startsW (SL "#") line then
      .emit [] st
    else .emit line st

/-- The `#pragma endasm` payload (lines 1442-1450): erase
`sizeof("#pragma endasm")` = 15 characters, tokenize (modelled external
tokenizer) and, on the shape `( NAME = ANY )`, emit `asm(NAME);`. -/
def endasmPayload (line : Str) : Str :=
  if containsSub line (SL "=") then
    match tokenizeStr (line.drop 15) with
    | a :: nm :: eq :: _ :: cl :: _ =>
      if a = SL "(" && isNameTok nm && eq = SL "=" && cl = SL ")" then
        SL "asm(" ++ nm ++ SL ");"
      else []
    | _ => []
  else []

/-- The `getcode` line loop (lines 1425-1597).  The `inAsm` flag is true
while inside a `#pragma asm` block: its lines collapse to newlines and do
not advance `lineno`; a `#pragma endasm` line contributes its payload and
leaves the block; a block the input ends inside emits one newline per
consumed line with nothing after it (the C++ `break`).  Ordinary lines go
through `lineAction` and are emitted followed by a newline.  The first
component is `none` on the `#error` abort. -/
def processLines (settings : Option Settings) :
    Bool → GcState → List Str → Option Str × GcState
  | _, st, [] => (some [], st)
  | true, st, l :: rest =>
    if startsW (SL "#pragma endasm") l then
      let r := processLines settings false st rest
      ((r.1).map (fun o => endasmPayload l ++ '\n' :: o), r.2)
    else
      let r := processLines settings true st rest
      ((r.1).map (fun o => '\n' :: o), r.2)
  | false, st, l :: rest =>
    let st := { st with lineno := st.lineno + 1 }
    if startsW (SL "#pragma asm") l then
      let r := processLines settings true st rest
      ((r.1).map (fun o => '\n' :: o), r.2)
    else
      match lineAction settings st l with
      | .abort st2 => (none, st2)
      | .emit l2 st2 =>
        let r := processLines settings false st2 rest
        ((r.1).map (fun o => l2 ++ '\n' :: o), r.2)

/-- `Preprocessor::getcode` (lines 1383-1600): build the configuration
map, run the line loop, and expand macros on the emitted text; the
`#error` abort returns the empty string directly.  `none` is fuel
exhaustion inside `expandMacros`. -/
def getcode (fuel : Nat) (settings : Option Settings)
    (filedata cfg filename : Str) : Option (Str × List CppError) :=
  let st0 : GcState := { cfgmap := parseCfgMap cfg, filenames := [filename] }
  let r := processLines settings false st0 (splitLines filedata)
  match r.1 with
  | none => some ([], (r.2).errors)
  | some out =>
    match expandMacros fuel out filename with
    | none => none
    | some (o, errs2) => some (o, (r.2).errors ++ errs2)

/-- Number of positions at which `pat` occurs in `s` (used to state that a
token appears exactly once in an output). -/
def countOcc (s pat : Str) : Nat :=
  ((List.range (s.length + 1)).filter (fun i => startsW pat (s.drop i))).length

/-- The state carried by a `GcAct`, whether the line was emitted or the
`#error` abort was taken. -/
def gcActState : GcAct → GcState
  | .emit _ st => st
  | .abort st => st

/-! ## Theorems -/

/-- C4: `expandMacros` terminates on the self-referential macro input
`"#define A A\nA;"` — the run completes within finite fuel — and its
output `"\n$A;"` contains the token `A;` exactly once: the expansion-limit
map blocks re-expansion of `A` inside its own expansion. -/
theorem C4_self_recursion_guard :
    expandMacros 60 (SL "#define A A\nA;") (SL "test.c") =
      some (SL "\n$A;", []) ∧
    countOcc (SL "\n$A;") (SL "A;") = 1 := by decide

/-- C6: `getcfgs` on `"#ifdef A\n#ifdef B\nx\n#else\ny\n#endif\n#endif\n"`
returns exactly the configurations `""`, `"A"`, `"A;B"`, in that order. -/
theorem C6_nested_config_enumeration :
    (getcfgs none (SL "#ifdef A\n#ifdef B\nx\n#else\ny\n#endif\n#endif\n")
      (SL "test.c")).1 = [[], SL "A", SL "A;B"] := by decide

/-- C7 counterexample: the emitter output for
`"#define F(x) (x+1)\nF(3);\n"` does not contain `"$( 3 +1);"` — the
expansion is inserted without spaces around the substituted argument. -/
theorem C7_counterexample :
    (expandMacros 80 (SL "#define F(x) (x+1)\nF(3);\n") (SL "test.c")).map
      (fun p => containsSub p.1 (SL "$( 3 +1);")) = some false := by decide

/-- C7 amended: the output for `"#define F(x) (x+1)\nF(3);\n"` is
`"\n$(3+1);\n"`, which contains `"$(3+1);"`: the expansion of `F(3)` is
inserted with a leading `$` marker and no extra spacing. -/
theorem C7_function_macro_expansion_amended :
    expandMacros 80 (SL "#define F(x) (x+1)\nF(3);\n") (SL "test.c") =
      some (SL "\n$(3+1);\n", []) ∧
    containsSub (SL "\n$(3+1);\n") (SL "$(3+1);") = true := by decide

/-- C2 counterexample: on `"#ifdef A(\n"` the mismatched-parenthesis error
aborts enumeration, `getcfgs` returns the empty list, and the empty
configuration is not in it. -/
theorem C2_counterexample :
    (getcfgs none (SL "#ifdef A(\n") (SL "test.c")).1 = [] ∧
    [] ∉ (getcfgs none (SL "#ifdef A(\n") (SL "test.c")).1 := by decide

/-- C1 counterexample: line counts are not preserved by every stage on
every input — `removeIf0` appends a newline to `"x"`; `removeComments`
loses the newline of the unterminated comment `"/*\n"`; `getcode` and
`expandMacros` return the empty string for `"\"\n"` (noQuoteCharPair),
losing its newline. -/
theorem C1_counterexample :
    countNL (removeIf0 (SL "x")) ≠ countNL (SL "x") ∧
    (removeComments none (SL "/*\n") (SL "t.c")).map (fun p => countNL p.1) =
      some 0 ∧
    countNL (SL "/*\n") = 1 ∧
    (getcode 50 none (SL "\"\n") [] (SL "t.c")).map (fun p => countNL p.1) =
      some 0 ∧
    (expandMacros 50 (SL "\"\n") (SL "t.c")).map (fun p => countNL p.1) =
      some 0 ∧
    countNL (SL "\"\n") = 1 := by decide

/-- C5: `match_cfg_def cfg def` returns true exactly when the condition as
simplified by `simplifyCondition` in strict (match) mode is the string `1`
or is itself a key of `cfg`. -/
theorem C5_match_cfg_def_verdict (cfg : StrMap) (d : Str) :
    match_cfg_def cfg d = true ↔
      (simplifyCondition cfg d true = SL "1" ∨
       mapHasKey cfg (simplifyCondition cfg d true) = true) := by
  unfold match_cfg_def
  by_cases h1 : mapHasKey cfg (simplifyCondition cfg d true) = true
  · simp [h1]
  · by_cases h2 : simplifyCondition cfg d true = SL "0"
    · have h4 : ¬ simplifyCondition cfg d true = SL "1" := by
        rw [h2]; decide
      simp [h1, h2, h4]
      intro hc
      exact absurd hc (by decide)
    · by_cases h3 : simplifyCondition cfg d true = SL "1"
      · simp [h1, h2, h3]
        exact Or.inr (by decide)
      · simp [h1, h2, h3]

/-- Any string starts with itself followed by anything. -/
theorem startsW_append (p t : Str) : startsW p (p ++ t) = true := by
  induction p with
  | nil => rfl
  | cons c cs ih => simp [startsW, ih]

/-- A string starting with `p` is `p` followed by some suffix. -/
theorem startsW_ex {p l : Str} (h : startsW p l = true) : ∃ t, l = p ++ t := by
  induction p generalizing l with
  | nil => exact ⟨l, rfl⟩
  | cons c cs ih =>
    match l with
    | [] => exact absurd h (by simp [startsW])
    | d :: ds =>
      simp only [startsW, Bool.and_eq_true, decide_eq_true_eq] at h
      obtain ⟨t, ht⟩ := ih h.2
      exact ⟨t, by simp [h.1, ht]⟩

/-- C9: a `#undef NAME` line erases NAME from the configuration map in
every state — in particular also when the current conditional branch is
not selected; the conditional stacks are not consulted. -/
theorem C9_undef_unconditional (settings : Option Settings) (st : GcState)
    (tail : Str) :
    (gcActState (lineAction settings st (SL "#undef " ++ tail))).cfgmap =
      mapErase st.cfgmap tail := by
  show (gcActState (lineAction settings st
    ('#' :: 'u' :: 'n' :: 'd' :: 'e' :: 'f' :: ' ' :: tail))).cfgmap =
      mapErase st.cfgmap tail
  simp [lineAction, condStep, getdef, startsW, gcActState]
  by_cases hm : false ∈ st.matching_ifdef <;> simp [hm]

/-- Inside an asm block with no `#pragma endasm` line remaining, the line
loop emits exactly one newline per consumed line and ends in the same
state. -/
theorem processLines_asm_all (settings : Option Settings) (st : GcState)
    (rest : List Str) (h : ∀ l ∈ rest, startsW (SL "#pragma endasm") l = false) :
    processLines settings true st rest =
      (some (List.replicate rest.length '\n'), st) := by
  induction rest with
  | nil => rfl
  | cons l ls ih =>
    have hl : startsW (SL "#pragma endasm") l = false := h l (by simp)
    have ihh := ih (fun x hx => h x (by simp [hx]))
    simp [processLines, hl, ihh, List.replicate_succ]

/-- C10: a `#pragma asm` line with no later `#pragma endasm` makes the
line loop consume the whole remaining input, emitting one newline for the
`#pragma asm` line and one per consumed line; no later line is processed
(the final state is unchanged but for the `#pragma asm` line count), so
the remainder of the file is dropped from the output. -/
theorem C10_unterminated_pragma_asm (settings : Option Settings)
    (st : GcState) (tail : Str) (rest : List Str)
    (h : ∀ l ∈ rest, startsW (SL "#pragma endasm") l = false) :
    processLines settings false st ((SL "#pragma asm" ++ tail) :: rest) =
      (some (List.replicate (1 + rest.length) '\n'),
       { st with lineno := st.lineno + 1 }) := by
  have hs : startsW (SL "#pragma asm") (SL "#pragma asm" ++ tail) = true :=
    startsW_append _ _
  simp [processLines, hs,
    processLines_asm_all settings { st with lineno := st.lineno + 1 } rest h,
    List.replicate_succ, Nat.add_comm]

/-- C10 witness: concrete unterminated asm block. -/
theorem C10_unterminated_pragma_asm_witness :
    processLines none false
        { cfgmap := [], filenames := [SL "t.c"] }
        ((SL "#pragma asm" ++ []) :: [SL "x", SL "y"]) =
      (some (List.replicate 3 '\n'),
       { cfgmap := [], filenames := [SL "t.c"], lineno := 1 }) := by
  have := C10_unterminated_pragma_asm none
    { cfgmap := [], filenames := [SL "t.c"] } [] [SL "x", SL "y"]
    (by intro l hl; fin_cases hl <;> decide)
  simpa using this

set_option maxHeartbeats 4000000 in
/-- `condStep` preserves equality of the two conditional-stack lengths. -/
theorem condStep_stack_len (settings : Option Settings) (st : GcState)
    (line : Str)
    (h : st.matching_ifdef.length = st.matched_ifdef.length) :
    ((condStep settings st line).matching_ifdef).length =
    ((condStep settings st line).matched_ifdef).length := by
  simp only [condStep]
  generalize getdef line true = d0
  generalize getdef line false = d1
  generalize match_cfg_def st.cfgmap d0 = vA
  generalize match_cfg_def st.cfgmap d1 = vB
  split_ifs <;>
    simp_all [apply_ite, List.isEmpty_iff, ← List.length_eq_zero] <;> omega

set_option maxHeartbeats 4000000 in
/-- The part of `lineAction` after `condStep` (the `#error` check and the
emission rewriting) never touches the conditional stacks. -/
theorem lineAction_stacks (settings : Option Settings) (st : GcState)
    (line : Str) :
    (gcActState (lineAction settings st line)).matching_ifdef =
      (condStep settings st line).matching_ifdef ∧
    (gcActState (lineAction settings st line)).matched_ifdef =
      (condStep settings st line).matched_ifdef := by
  simp only [lineAction, gcActState]
  generalize condStep settings st line = s1
  cases settings <;> constructor <;> split_ifs <;>
    first
      | rfl
      | (dsimp only; split <;> rfl)

/-- A whole run of the `getcode` line loop preserves equality of the two
conditional-stack lengths. -/
theorem processLines_stack_len (settings : Option Settings)
    (lines : List Str) : ∀ (mode : Bool) (st : GcState),
    st.matching_ifdef.length = st.matched_ifdef.length →
    (((processLines settings mode st lines).2).matching_ifdef).length =
    (((processLines settings mode st lines).2).matched_ifdef).length := by
  induction lines with
  | nil => intro mode st h; cases mode <;> simpa [processLines] using h
  | cons l ls ih =>
    intro mode st h
    cases mode with
    | true =>
      simp only [processLines]
      split_ifs <;> simpa using ih _ st h
    | false =>
      simp only [processLines]
      split_ifs with hp
      · simpa using ih true { st with lineno := st.lineno + 1 }
          (by simpa using h)
      · cases hla : lineAction settings { st with lineno := st.lineno + 1 } l
          with
        | abort st2 =>
          have h1 := condStep_stack_len settings
            { st with lineno := st.lineno + 1 } l (by simpa using h)
          have h2 := lineAction_stacks settings
            { st with lineno := st.lineno + 1 } l
          rw [hla] at h2
          simp only [gcActState] at h2
          simp [hla, h2.1, h2.2, h1]
        | emit l2 st2 =>
          have h1 := condStep_stack_len settings
            { st with lineno := st.lineno + 1 } l (by simpa using h)
          have h2 := lineAction_stacks settings
            { st with lineno := st.lineno + 1 } l
          rw [hla] at h2
          simp only [gcActState] at h2
          simpa [hla] using ih false st2 (by rw [h2.1, h2.2]; exact h1)

/-- C8: the two conditional stacks of the `getcode` line loop.  Equal
lengths are preserved by every single line (first conjunct) and by every
whole run (second conjunct); an `#endif` line pops exactly the top element
of both stacks (third conjunct); an `#else` line negates only the top of
`matching_ifdef` from the top of `matched_ifdef`, leaving both tails and
all of `matched_ifdef` unchanged (fourth conjunct); an `#elif` line
changes at most the top elements: both tails are unchanged and each stack
keeps its length (fifth conjunct). -/
theorem C8_conditional_stack_invariant (settings : Option Settings)
    (st : GcState) (line : Str) (mode : Bool) (lines : List Str)
    (tail tail2 : Str) (a b : Bool) (as bs : List Bool)
    (h : st.matching_ifdef.length = st.matched_ifdef.length) :
    (((gcActState (lineAction settings st line)).matching_ifdef).length =
      ((gcActState (lineAction settings st line)).matched_ifdef).length) ∧
    ((((processLines settings mode st lines).2).matching_ifdef).length =
      (((processLines settings mode st lines).2).matched_ifdef).length) ∧
    ((gcActState (lineAction settings
        { st with matching_ifdef := a :: as, matched_ifdef := b :: bs }
        (SL "#endif" ++ tail))).matching_ifdef = as ∧
     (gcActState (lineAction settings
        { st with matching_ifdef := a :: as, matched_ifdef := b :: bs }
        (SL "#endif" ++ tail))).matched_ifdef = bs) ∧
    ((gcActState (lineAction settings
        { st with matching_ifdef := a :: as, matched_ifdef := b :: bs }
        (SL "#else"))).matching_ifdef = (!b) :: as ∧
     (gcActState (lineAction settings
        { st with matching_ifdef := a :: as, matched_ifdef := b :: bs }
        (SL "#else"))).matched_ifdef = b :: bs) ∧
    (((gcActState (lineAction settings
        { st with matching_ifdef := a :: as, matched_ifdef := b :: bs }
        (SL "#elif " ++ tail2))).matching_ifdef).tail = as ∧
     ((gcActState (lineAction settings
        { st with matching_ifdef := a :: as, matched_ifdef := b :: bs }
        (SL "#elif " ++ tail2))).matched_ifdef).tail = bs ∧
     ((gcActState (lineAction settings
        { st with matching_ifdef := a :: as, matched_ifdef := b :: bs }
        (SL "#elif " ++ tail2))).matching_ifdef).length = as.length + 1 ∧
     ((gcActState (lineAction settings
        { st with matching_ifdef := a :: as, matched_ifdef := b :: bs }
        (SL "#elif " ++ tail2))).matched_ifdef).length = bs.length + 1) := by
  refine ⟨?_, processLines_stack_len settings lines mode st h, ?_, ?_, ?_⟩
  · rw [(lineAction_stacks settings st line).1,
      (lineAction_stacks settings st line).2]
    exact condStep_stack_len settings st line h
  · rw [(lineAction_stacks settings _ _).1, (lineAction_stacks settings _ _).2]
    constructor <;> simp [condStep, getdef, startsW, SL]
  · rw [(lineAction_stacks settings _ _).1, (lineAction_stacks settings _ _).2]
    constructor <;> simp [condStep, getdef, startsW, SL]
  · rw [(lineAction_stacks settings _ _).1, (lineAction_stacks settings _ _).2]
    by_cases hb : startsW (SL "!") tail2
    all_goals refine ⟨?_, ?_, ?_, ?_⟩
    all_goals simp [condStep, getdef, startsW, SL, hb]
    all_goals split_ifs <;> simp

/-- C8 witness: the theorem at a concrete state and concrete stacks. -/
theorem C8_conditional_stack_invariant_witness :
    (((gcActState (lineAction none {} [])).matching_ifdef).length =
      ((gcActState (lineAction none {} [])).matched_ifdef).length) ∧
    ((((processLines none false {} []).2).matching_ifdef).length =
      (((processLines none false {} []).2).matched_ifdef).length) ∧
    ((gcActState (lineAction none
        { matching_ifdef := [true], matched_ifdef := [true] }
        (SL "#endif" ++ []))).matching_ifdef = [] ∧
     (gcActState (lineAction none
        { matching_ifdef := [true], matched_ifdef := [true] }
        (SL "#endif" ++ []))).matched_ifdef = []) ∧
    ((gcActState (lineAction none
        { matching_ifdef := [true], matched_ifdef := [true] }
        (SL "#else"))).matching_ifdef = [!true] ∧
     (gcActState (lineAction none
        { matching_ifdef := [true], matched_ifdef := [true] }
        (SL "#else"))).matched_ifdef = [true]) ∧
    (((gcActState (lineAction none
        { matching_ifdef := [true], matched_ifdef := [true] }
        (SL "#elif " ++ []))).matching_ifdef).tail = [] ∧
     ((gcActState (lineAction none
        { matching_ifdef := [true], matched_ifdef := [true] }
        (SL "#elif " ++ []))).matched_ifdef).tail = [] ∧
     ((gcActState (lineAction none
        { matching_ifdef := [true], matched_ifdef := [true] }
        (SL "#elif " ++ []))).matching_ifdef).length = ([] : List Bool).length + 1 ∧
     ((gcActState (lineAction none
        { matching_ifdef := [true], matched_ifdef := [true] }
        (SL "#elif " ++ []))).matched_ifdef).length = ([] : List Bool).length + 1) :=
  C8_conditional_stack_invariant none {} [] false [] [] [] true true [] []
    rfl

/-- Skipping a non-newline character in `std::getline` splitting. -/
theorem splitLinesGo_cons_ne (c : Char) (hc : ¬ c = '\n') (cur rest : Str) :
    splitLinesGo cur (c :: rest) = splitLinesGo (c :: cur) rest := by
  rw [splitLinesGo.eq_def]
  simp [hc]

/-- For an input ending in a newline, `std::getline` yields exactly one
line per newline character. -/
theorem splitLinesGo_len : ∀ (s : Str), endsNL s = true →
    ∀ cur, (splitLinesGo cur s).length = countNL s := by
  intro s
  induction s with
  | nil => intro h; simp [endsNL] at h
  | cons c rest ih =>
    intro h cur
    by_cases hc : c = '\n'
    · subst hc
      cases rest with
      | nil => simp [splitLinesGo, countNL]
      | cons d rest2 =>
        have h2 : endsNL (d :: rest2) = true := by simpa [endsNL] using h
        show (cur.reverse :: splitLinesGo [] (d :: rest2)).length =
          countNL ('\n' :: d :: rest2)
        have hx := ih h2 []
        simp only [countNL] at hx ⊢
        simp [List.count_cons, hx]
    · cases rest with
      | nil => simp [endsNL, hc] at h
      | cons d rest2 =>
        have h2 : endsNL (d :: rest2) = true := by simpa [endsNL] using h
        rw [splitLinesGo_cons_ne c hc cur (d :: rest2)]
        have hx := ih h2 (c :: cur)
        simp only [countNL] at hx ⊢
        simp [List.count_cons, hx, hc]

/-- Lines produced by `std::getline` contain no newline character. -/
theorem splitLinesGo_nlFree : ∀ (s cur : Str), (∀ c ∈ cur, ¬ c = '\n') →
    ∀ l ∈ splitLinesGo cur s, '\n' ∉ l := by
  intro s
  induction s with
  | nil =>
    intro cur hcur l hl
    have hl2 : l ∈ [cur.reverse] := hl
    simp at hl2
    subst hl2
    intro hmem
    exact hcur '\n' (by simpa using hmem) rfl
  | cons c rest ih =>
    intro cur hcur l hl
    by_cases hc : c = '\n'
    · subst hc
      cases rest with
      | nil =>
        have hl2 : l ∈ [cur.reverse] := hl
        simp at hl2
        subst hl2
        intro hmem
        exact hcur '\n' (by simpa using hmem) rfl
      | cons d rest2 =>
        have hl2 : l ∈ cur.reverse :: splitLinesGo [] (d :: rest2) := hl
        rcases List.mem_cons.mp hl2 with h1 | h1
        · subst h1
          intro hmem
          exact hcur '\n' (by simpa using hmem) rfl
        · exact ih [] (by simp) l h1
    · rw [splitLinesGo_cons_ne c hc cur rest] at hl
      exact ih (c :: cur) (by
        intro x hx
        rcases List.mem_cons.mp hx with h1 | h1
        · subst h1; exact hc
        · exact hcur x h1) l hl

/-- `removeIf0` emits exactly one newline per input line when the lines
are newline-free. -/
theorem rif0Go_count : ∀ (ls : List Str), (∀ l ∈ ls, '\n' ∉ l) →
    ∀ m, countNL (rif0Go m ls) = ls.length := by
  intro ls
  induction ls with
  | nil => intro _ m; rcases m with _ | ⟨level, inn⟩ <;> simp [rif0Go, countNL]
  | cons l ls ih =>
    intro hls m
    have h0 : List.count '\n' l = 0 :=
      List.count_eq_zero.mpr (hls l (by simp))
    have hr := ih (fun x hx => hls x (by simp [hx]))
    simp only [countNL] at hr
    rcases m with _ | ⟨level, inn⟩
    · simp only [rif0Go, countNL]
      simp [List.count_append, List.count_cons, h0, hr]
    · simp only [rif0Go, countNL]
      split_ifs <;>
        simp [List.count_append, List.count_cons, h0, hr]

/-- `std::string::erase` introduces no newline. -/
theorem nl_eraseAt (s : Str) (p n : Nat) (h : '\n' ∉ s) :
    '\n' ∉ eraseAt s p n := by
  simp only [eraseAt, List.mem_append]
  rintro (hx | hx)
  · exact h (List.take_subset _ _ hx)
  · exact h (List.drop_subset _ _ hx)

/-- The erase loops of `removeParentheses` introduce no newline. -/
theorem nl_eraseLoop : ∀ (fuel : Nat) (pat : Str) (off : Nat) (s : Str)
    (pos : Nat), '\n' ∉ s → '\n' ∉ eraseLoop fuel pat off s pos := by
  intro fuel
  induction fuel with
  | zero => intro pat off s pos h; exact h
  | succ fuel ih =>
    intro pat off s pos h
    simp only [eraseLoop]
    cases hf : findSubFrom s pat pos with
    | none => exact h
    | some p => exact ih pat off _ p (nl_eraseAt s (p + off) 1 h)

/-- The inner-parenthesis loop of `removeParentheses` introduces no
newline. -/
theorem nl_innerParen : ∀ (fuel : Nat) (s : Str) (pos : Nat),
    '\n' ∉ s → '\n' ∉ innerParenLoop fuel s pos := by
  intro fuel
  induction fuel with
  | zero => intro s pos h; exact h
  | succ fuel ih =>
    intro s pos h
    simp only [innerParenLoop]
    cases hf : findSubFrom s (SL "((") pos with
    | none => exact h
    | some p =>
      dsimp only
      cases hg : findCharOfFrom s (SL "()") (p + 2) with
      | none => exact ih s (p + 1) h
      | some p2 =>
        dsimp only
        split_ifs
        · exact ih _ (p + 1) (nl_eraseAt _ (p + 1) 1 (nl_eraseAt s p2 1 h))
        · exact ih s (p + 1) h

/-- Overwriting a character with a space introduces no newline. -/
theorem nl_set (s : Str) (q : Nat) (h : '\n' ∉ s) : '\n' ∉ s.set q ' ' := by
  intro hx
  rcases List.mem_or_eq_of_mem_set hx with h1 | h1
  · exact h h1
  · exact absurd h1 (by decide)

/-- The full-span parenthesis collapse introduces no newline. -/
theorem nl_fullSpanApply (s : Str) (h : '\n' ∉ s) :
    '\n' ∉ fullSpanApply s := by
  simp only [fullSpanApply]
  cases hf : findSubFrom s (SL "(") 0 with
  | none => exact nl_eraseAt s (s.length - 1) 1 h
  | some q => exact nl_eraseAt _ (s.length - 1) 1 (nl_set s q h)

/-- The full-span scan introduces no newline. -/
theorem nl_fullSpanGo (s : Str) (h : '\n' ∉ s) :
    ∀ (fuel : Nat) (i : Nat) (ind : Int), '\n' ∉ fullSpanGo s fuel i ind := by
  intro fuel
  induction fuel with
  | zero => intro i ind; exact h
  | succ fuel ih =>
    intro i ind
    simp only [fullSpanGo]
    split_ifs
    all_goals first
      | exact h
      | exact nl_fullSpanApply s h
      | apply ih

/-- The full-span scan wrapper introduces no newline. -/
theorem nl_fullSpanScan (s : Str) (h : '\n' ∉ s) :
    '\n' ∉ fullSpanScan s := nl_fullSpanGo s h _ _ _

/-- Inserting a space introduces no newline. -/
theorem nl_insertSp (s : Str) (p : Nat) (h : '\n' ∉ s) :
    '\n' ∉ insertAt s p (SL " ") := by
  simp only [insertAt, List.mem_append]
  rintro ((hx | hx) | hx)
  · exact h (List.take_subset _ _ hx)
  · exact absurd hx (by decide)
  · exact h (List.drop_subset _ _ hx)

set_option maxHeartbeats 8000000 in
/-- The per-line transformation of `removeParentheses` introduces no
newline. -/
theorem nl_rparLine (l : Str) (h : '\n' ∉ l) : '\n' ∉ rparLine l := by
  simp only [rparLine]
  split_ifs
  all_goals
    repeat
      first
        | exact h
        | apply nl_insertSp
        | apply nl_fullSpanScan
        | apply nl_innerParen
        | apply nl_eraseLoop

/-- The emission fold of `removeParentheses` yields one newline per line
when the lines are newline-free. -/
theorem rparFold_count : ∀ (ls : List Str), (∀ l ∈ ls, '\n' ∉ l) →
    countNL (ls.foldr (fun l acc => rparLine l ++ '\n' :: acc) []) =
      ls.length := by
  intro ls
  induction ls with
  | nil => intro _; simp [countNL]
  | cons l ls ih =>
    intro hls
    have h0 : List.count '\n' (rparLine l) = 0 :=
      List.count_eq_zero.mpr (nl_rparLine l (hls l (by simp)))
    have hr := ih (fun x hx => hls x (by simp [hx]))
    simp only [countNL] at hr ⊢
    simp [List.count_append, List.count_cons, h0, hr]

/-- C1 amended: for every input that ends in a newline (or is empty),
`removeIf0` and `removeParentheses` preserve the number of newline
characters exactly. -/
theorem C1_line_preservation_amended (s : Str)
    (h : endsNL s = true ∨ s = []) :
    countNL (removeIf0 s) = countNL s ∧
    countNL (removeParentheses s) = countNL s := by
  rcases h with h | rfl
  · have hs_ne : s ≠ [] := by
      intro he
      rw [he] at h
      simp [endsNL] at h
    have hsplit_eq : splitLines s = splitLinesGo [] s := by
      cases s with
      | nil => exact absurd rfl hs_ne
      | cons c r => rfl
    have hlen : (splitLines s).length = countNL s := by
      rw [hsplit_eq]
      exact splitLinesGo_len s h []
    have hfree : ∀ l ∈ splitLines s, '\n' ∉ l := by
      rw [hsplit_eq]
      exact splitLinesGo_nlFree s [] (by simp)
    constructor
    · show countNL (rif0Go none (splitLines s)) = countNL s
      rw [rif0Go_count (splitLines s) hfree none, hlen]
    · by_cases hsc :
        (!containsSub s (SL "\n#if") && !startsW (SL "#if") s) = true
      · simp [removeParentheses, hsc]
      · rw [removeParentheses, if_neg (by simpa using hsc),
          rparFold_count (splitLines s) hfree, hlen]
  · constructor <;> rfl

/-- C1 amended witness: the input `"x\n"`. -/
theorem C1_line_preservation_amended_witness :
    (endsNL (SL "x\n") = true ∨ SL "x\n" = []) ∧
    (countNL (removeIf0 (SL "x\n")) = countNL (SL "x\n") ∧
     countNL (removeParentheses (SL "x\n")) = countNL (SL "x\n")) :=
  ⟨Or.inl (by decide),
   C1_line_preservation_amended (SL "x\n") (Or.inl (by decide))⟩

/-- `cfgDefineLine` never changes the configuration list `ret`. -/
theorem cfgDefineLine_ret (line : Str) (st : CfgState) :
    ((cfgDefineLine line st).2).ret = st.ret := by
  simp only [cfgDefineLine]
  split_ifs <;> first | rfl | (split <;> rfl)

set_option maxHeartbeats 4000000 in
/-- The conditional-directive block of the walk only ever appends to
`ret`: membership is preserved. -/
theorem cfgCond_ret (filename l : Str) (st st2 : CfgState)
    (h : cfgCond filename l st = .ok st2) (hm : [] ∈ st.ret) :
    [] ∈ st2.ret := by
  simp only [cfgCond] at h
  split_ifs at h <;>
    first
      | (injection h with h2; subst h2; exact hm)
      | (injection h with h2; subst h2; exact List.mem_append_left _ hm)
      | exact Except.noConfusion h
      | (subst h; exact hm)
      | (subst h; exact List.mem_append_left _ hm)

set_option maxHeartbeats 4000000 in
/-- A walk step preserves membership of the empty configuration in
`ret`. -/
theorem cfgLine_ret (filename l : Str) (st st2 : CfgState)
    (h : cfgLine filename l st = .ok st2) (hm : [] ∈ st.ret) :
    [] ∈ st2.ret := by
  simp only [cfgLine] at h
  split_ifs at h <;>
    first
      | (injection h with h2; subst h2; exact hm)
      | (injection h with h2; subst h2;
         simp only [cfgDefineLine_ret]; exact hm)
      | exact Except.noConfusion h
      | (subst h; exact hm)
      | exact cfgCond_ret filename _ _ st2 h hm
      | (refine cfgCond_ret filename _ _ st2 h ?_;
         simp only [cfgDefineLine_ret]; exact hm)

/-- A whole successful walk preserves membership of the empty configuration
in `ret`. -/
theorem cfgWalk_ret (filename : Str) : ∀ (lines : List Str)
    (st st2 : CfgState), cfgWalk filename st lines = .ok st2 →
    [] ∈ st.ret → [] ∈ st2.ret := by
  intro lines
  induction lines with
  | nil =>
    intro st st2 h hm
    injection h with h2
    subst h2
    exact hm
  | cons l ls ih =>
    intro st st2 h hm
    simp only [cfgWalk] at h
    cases hc : cfgLine filename l st with
    | error e => rw [hc] at h; exact Except.noConfusion h
    | ok st3 =>
      rw [hc] at h
      exact ih st3 st2 h (cfgLine_ret filename l st st3 hc hm)

/-- `operator<` on strings is irreflexive. -/
theorem lexLt_irrefl : ∀ s : Str, lexLt s s = false := by
  intro s
  induction s with
  | nil => rfl
  | cons c rest ih => simp [lexLt, ih]

/-- `operator<` on strings is transitive. -/
theorem lexLt_trans : ∀ a b c : Str, lexLt a b = true → lexLt b c = true →
    lexLt a c = true := by
  intro a
  induction a with
  | nil =>
    intro b c hab hbc
    cases b with
    | nil => simp [lexLt] at hab
    | cons y bs =>
      cases c with
      | nil => simp [lexLt] at hbc
      | cons z cs => rfl
  | cons x as ih =>
    intro b c hab hbc
    cases b with
    | nil => simp [lexLt] at hab
    | cons y bs =>
      cases c with
      | nil => simp [lexLt] at hbc
      | cons z cs =>
        simp only [lexLt] at hab hbc ⊢
        by_cases hxy : x = y <;> by_cases hyz : y = z
        · subst hxy; subst hyz
          simp_all
          exact ih bs cs hab hbc
        · subst hxy
          simp_all
        · subst hyz
          simp_all
        · rw [if_neg hxy] at hab
          rw [if_neg hyz] at hbc
          simp only [decide_eq_true_eq] at hab hbc
          have hlt : x < z := lt_trans hab hbc
          have hne : x ≠ z := ne_of_lt hlt
          rw [if_neg hne]
          simp [hlt]

/-- `operator<` on strings is connected: distinct strings compare. -/
theorem lexLt_conn : ∀ a b : Str, a ≠ b →
    lexLt a b = true ∨ lexLt b a = true := by
  intro a
  induction a with
  | nil =>
    intro b hb
    cases b with
    | nil => exact absurd rfl hb
    | cons y bs => left; rfl
  | cons x as ih =>
    intro b hb
    cases b with
    | nil => right; rfl
    | cons y bs =>
      by_cases hxy : x = y
      · subst hxy
        have hne : as ≠ bs := by
          intro he
          exact hb (by rw [he])
        rcases ih bs hne with h | h
        · left; simp [lexLt, h]
        · right; simp [lexLt, h]
      · rcases lt_trichotomy x y with h | h | h
        · left; simp [lexLt, hxy, h]
        · exact absurd h hxy
        · right
          have hne : y ≠ x := fun he => hxy he.symm
          simp [lexLt, hne, h]

/-- Membership after `std::set::insert`. -/
theorem mem_setInsert (x k : Str) : ∀ l : List Str,
    x ∈ setInsert k l ↔ x = k ∨ x ∈ l := by
  intro l
  induction l with
  | nil => simp [setInsert]
  | cons k2 rest ih =>
    simp only [setInsert]
    split_ifs with h1 h2
    · simp [List.mem_cons]
    · subst h2
      simp [List.mem_cons]
    · simp [List.mem_cons, ih]
      tauto

/-- `std::set::insert` keeps the element list strictly sorted. -/
theorem setInsert_sorted (k : Str) : ∀ l : List Str,
    l.Pairwise (fun a b => lexLt a b = true) →
    (setInsert k l).Pairwise (fun a b => lexLt a b = true) := by
  intro l
  induction l with
  | nil => intro _; simp [setInsert]
  | cons k2 rest ih =>
    intro hp
    rcases List.pairwise_cons.mp hp with ⟨hk2, hrest⟩
    simp only [setInsert]
    split_ifs with h1 h2
    · refine List.pairwise_cons.mpr ⟨?_, hp⟩
      intro x hx
      rcases List.mem_cons.mp hx with rfl | hx
      · exact h1
      · exact lexLt_trans _ _ _ h1 (hk2 x hx)
    · exact hp
    · refine List.pairwise_cons.mpr ⟨?_, ih hrest⟩
      intro x hx
      rcases (mem_setInsert x k rest).mp hx with rfl | hx
      · rcases lexLt_conn x k2 (fun he => h2 he) with h | h
        · exact absurd h h1
        · exact h
      · exact hk2 x hx

/-- `sort` + `unique` via sorted insertion yields a strictly sorted
list. -/
theorem sortUnique_sorted : ∀ (l : List Str) (acc : List Str),
    acc.Pairwise (fun a b => lexLt a b = true) →
    (l.foldl (fun a s => setInsert s a) acc).Pairwise
      (fun a b => lexLt a b = true) := by
  intro l
  induction l with
  | nil => intro acc h; exact h
  | cons s rest ih =>
    intro acc h
    exact ih (setInsert s acc) (setInsert_sorted s acc h)

/-- Sorted insertion preserves membership. -/
theorem sortUnique_mem : ∀ (l acc : List Str) (x : Str),
    (x ∈ acc ∨ x ∈ l) → x ∈ l.foldl (fun a s => setInsert s a) acc := by
  intro l
  induction l with
  | nil =>
    intro acc x h
    rcases h with h | h
    · exact h
    · simp at h
  | cons s rest ih =>
    intro acc x h
    apply ih (setInsert s acc) x
    rcases h with h | h
    · exact Or.inl ((mem_setInsert x s acc).mpr (Or.inr h))
    · rcases List.mem_cons.mp h with rfl | h
      · exact Or.inl ((mem_setInsert x x acc).mpr (Or.inl rfl))
      · exact Or.inr h

/-- A strictly sorted list has no duplicates. -/
theorem sorted_nodup (l : List Str)
    (h : l.Pairwise (fun a b => lexLt a b = true)) : l.Nodup := by
  refine h.imp ?_
  intro a b hab he
  subst he
  rw [lexLt_irrefl a] at hab
  exact Bool.false_ne_true hab

/-- The defined-name removal loop leaves the empty string empty. -/
theorem rmDefineName_nil (nm : Str) (pos : Nat) :
    rmDefineName 2 nm [] pos = [] := by
  by_cases hnm : nm = [] <;>
    simp [rmDefineName, findSubFrom, findSubGo, hnm]

/-- The defined-constants removal pass leaves the empty configuration
empty. -/
theorem rmDefinedPass_nil (defines : StrSet) :
    rmDefinedPass defines [] = [] := by
  simp only [rmDefinedPass]
  have hfold : defines.foldl
      (fun cfg d =>
        rmDefineName (cfg.length + 2)
          (match findSubFrom d (SL "=") 0 with
           | some p => d.take p
           | none => d) cfg 0) [] = [] := by
    induction defines with
    | nil => rfl
    | cons d rest ih =>
      simp only [List.foldl_cons]
      rw [show rmDefineName ((List.length []) + 2)
          (match findSubFrom d (SL "=") 0 with
           | some p => d.take p
           | none => d) [] 0 = [] from rmDefineName_nil _ 0]
      exact ih
  rw [hfold]
  simp

/-- C2 amended: for every input text and filename the configuration list
returned by `getcfgs` is strictly sorted in ascending `operator<` order
and has no duplicates, and it contains the empty (default) configuration
unless enumeration was aborted by the mismatched-parenthesis error, in
which case it is the empty list. -/
theorem C2_sorted_unique_amended (settings : Option Settings)
    (filedata filename : Str) :
    ((getcfgs settings filedata filename).1).Pairwise
      (fun a b => lexLt a b = true) ∧
    ((getcfgs settings filedata filename).1).Nodup ∧
    ((getcfgs settings filedata filename).1 = [] ∨
      [] ∈ (getcfgs settings filedata filename).1) := by
  cases hw : cfgWalk filename {} (splitLines filedata) with
  | error e => simp [getcfgs, hw]
  | ok st =>
    have hret : [] ∈ st.ret :=
      cfgWalk_ret filename (splitLines filedata) {} st hw (by simp)
    have hsorted : (sortUnique (((st.ret.map
        (rmDefinedPass st.defines)).map andConvert).map unifySemi)).Pairwise
        (fun a b => lexLt a b = true) := by
      simp only [sortUnique]
      exact sortUnique_sorted _ [] (by simp)
    have hmem3 : [] ∈ ((st.ret.map
        (rmDefinedPass st.defines)).map andConvert).map unifySemi := by
      have h1 : [] ∈ st.ret.map (rmDefinedPass st.defines) := by
        have hx := List.mem_map_of_mem (rmDefinedPass st.defines) hret
        rwa [rmDefinedPass_nil] at hx
      have h2 : [] ∈ (st.ret.map
          (rmDefinedPass st.defines)).map andConvert := by
        have hx := List.mem_map_of_mem andConvert h1
        rwa [show andConvert [] = [] from rfl] at hx
      have hx := List.mem_map_of_mem unifySemi h2
      rwa [show unifySemi [] = ([] : Str) from by decide] at hx
    have hmem4 : [] ∈ sortUnique (((st.ret.map
        (rmDefinedPass st.defines)).map andConvert).map unifySemi) := by
      simp only [sortUnique]
      exact sortUnique_mem _ [] [] (Or.inr hmem3)
    refine ⟨?_, ?_, Or.inr ?_⟩
    · simp only [getcfgs, hw]
      exact hsorted.filter _
    · simp only [getcfgs, hw]
      exact (sorted_nodup _ hsorted).filter _
    · simp only [getcfgs, hw]
      exact List.mem_filter.mpr ⟨hmem4, by decide⟩

/-- C3: in the `getcode` line loop, a line beginning with `#error`
reached while every enclosing conditional branch is selected, under
settings carrying a non-empty user-defines string, aborts the run and
appends exactly one `preprocessorErrorDirective` message for the current
file and line; on the whole of `getcode` the abort makes the returned
text the empty string (third conjunct, on a concrete input). -/
theorem C3_error_directive (s : Settings) (st : GcState) (tail : Str)
    (rest : List Str)
    (h2 : st.matching_ifdef.all (fun b => b) = true)
    (h3 : s.userDefines ≠ []) :
    (processLines (some s) false st ((SL "#error" ++ tail) :: rest)).1 =
      none ∧
    ((processLines (some s) false st ((SL "#error" ++ tail) :: rest)).2).errors
      = st.errors ++ [⟨SL "preprocessorErrorDirective",
          (st.filenames.head?).getD [], st.lineno + 1⟩] ∧
    getcode 50 (some { userDefines := SL "D" }) (SL "#error x\n") []
        (SL "t.c") =
      some ([], [⟨SL "preprocessorErrorDirective", SL "t.c", 1⟩]) := by
  refine ⟨?_, ?_, by decide⟩ <;>
    simp [processLines, lineAction, condStep, getdef, startsW, h2, h3,
      show SL "#else" = ['#','e','l','s','e'] from rfl,
      show SL "#error" = ['#','e','r','r','o','r'] from rfl]

/-- C3 witness: the theorem at a concrete settings record, state, line
tail and empty remainder. -/
theorem C3_error_directive_witness :
    (processLines (some { userDefines := SL "D" }) false
        { filenames := [SL "t.c"] } ((SL "#error" ++ SL " x") :: [])).1 =
      none ∧
    ((processLines (some { userDefines := SL "D" }) false
        { filenames := [SL "t.c"] } ((SL "#error" ++ SL " x") :: [])).2).errors
      = [] ++ [⟨SL "preprocessorErrorDirective",
          (([SL "t.c"] : List Str).head?).getD [], 0 + 1⟩] ∧
    getcode 50 (some { userDefines := SL "D" }) (SL "#error x\n") []
        (SL "t.c") =
      some ([], [⟨SL "preprocessorErrorDirective", SL "t.c", 1⟩]) :=
  C3_error_directive { userDefines := SL "D" } { filenames := [SL "t.c"] }
    (SL " x") [] (by decide) (by decide)

end Cppcheck
